import Mathlib

/-!
Verification of the SICU alarm-monitoring data layer.

The Python source (data_structure.py, alarm_default_validator.py,
components/alarm_filters.py, main.py) is shallowly embedded below.  A
patient's cached pandas DataFrame is a `List Row`; pandas NaN cells are
`Option.none`; the `Classification` cell, which in the pickled data can
hold None/NaN, a bool or a string, is the three-armed `CellVal`.  All
string manipulation is implemented structurally over `List Char` so that
every definition evaluates by kernel reduction.
-/

namespace SICU

/-! ## String utilities (models of the Python `str` operations used) -/

/-- Model of Python `needle in hay` (substring test) on char lists:
`needle` occurs as a contiguous segment of `hay`.  The empty needle
matches, as in Python. -/
def containsSeg : List Char → List Char → Bool
  | needle, [] => needle.isEmpty
  | needle, c :: t => needle.isPrefixOf (c :: t) || containsSeg needle t

/-- Python `needle in hay` on strings. -/
def strContains (hay needle : String) : Bool :=
  containsSeg needle.data hay.data

/-- Python `hay.startswith(needle)`. -/
def strStarts (hay needle : String) : Bool :=
  needle.data.isPrefixOf hay.data

/-- Model of Python `s.split(sep)` for a single-character separator:
keeps empty fields, never returns an empty list (`"".split(c) == [""]`). -/
def splitOnChar (c : Char) : List Char → List (List Char)
  | [] => [[]]
  | a :: t =>
    let r := splitOnChar c t
    if a == c then [] :: r
    else
      match r with
      | [] => [[a]]
      | h :: t2 => (a :: h) :: t2

/-- First field of `s.split(c)` (Python `s.split(c)[0]`). -/
def splitHead (c : Char) (s : String) : String :=
  ⟨(splitOnChar c s.data).headD s.data⟩

/-- Python `timestamp.split(' ')[0]` — the date part of a timestamp string. -/
def dateOf (s : String) : String := splitHead ' ' s

/-- Python `timestamp.split(' ')[1] if ' ' in timestamp else '00:00:00'` —
the time part used by `get_alarms_for_date` (data_structure.py:413). -/
def timeOf (s : String) : String :=
  match splitOnChar ' ' s.data with
  | _ :: t :: _ => ⟨t⟩
  | _ => "00:00:00"

/-- Python `timestamp_str.split('.')[0]` — strip fractional seconds
(data_structure.py:586). -/
def dropMicro (s : String) : String := splitHead '.' s

/-- Python `sep.join(parts)`. -/
def joinSep (sep : String) : List String → String
  | [] => ""
  | [x] => x
  | x :: t => x ++ sep ++ joinSep sep t

/-- Python `str.strip()`: drop leading and trailing whitespace. -/
def pyStrip (s : String) : String :=
  ⟨((s.data.dropWhile Char.isWhitespace).reverse.dropWhile Char.isWhitespace).reverse⟩

/-- Python `str.lower()` (ASCII case folding suffices for this data). -/
def pyLower (s : String) : String := ⟨s.data.map Char.toLower⟩

/-- Python `s.replace(c, "")` for a one-character pattern: drop every
occurrence of `c`. -/
def dropChar (c : Char) (s : String) : String := ⟨s.data.filter (· != c)⟩

/-- `AlarmValidator.normalize_string` (alarm_default_validator.py:49-55):
strip, lowercase, remove every space and both parenthesis characters. -/
def normalizeString (s : String) : String :=
  dropChar ')' (dropChar '(' (dropChar ' ' (pyLower (pyStrip s))))

/-- `AlarmFilter.normalize_alarm_label` (components/alarm_filters.py:45-60):
lowercase, strip, remove all spaces; empty/falsy labels normalize to `""`. -/
def normalizeAlarmLabel (label : String) : String :=
  if label == "" then "" else dropChar ' ' (pyStrip (pyLower label))

/-- Decimal digit character. -/
def digitChar (n : Nat) : Char := Char.ofNat (48 + n)

/-- Fuel-driven base-10 rendering (structural, so it kernel-reduces). -/
def natDigitsAux : Nat → Nat → List Char → List Char
  | 0, _, acc => acc
  | fuel + 1, n, acc =>
    if n < 10 then digitChar n :: acc
    else natDigitsAux fuel (n / 10) (digitChar (n % 10) :: acc)

/-- Decimal digits of `n`. -/
def natDigits (n : Nat) : List Char := natDigitsAux (n + 1) n []

/-- Python `"%02d"`-style zero padding used by `strftime("%H:%M:%S")`. -/
def pad2 (n : Nat) : List Char :=
  if n < 10 then '0' :: natDigits n else natDigits n

/-- Python `"%04d"`-style zero padding used by `strftime("%Y")`. -/
def pad4 (n : Nat) : List Char :=
  if n < 10 then '0' :: '0' :: '0' :: natDigits n
  else if n < 100 then '0' :: '0' :: natDigits n
  else if n < 1000 then '0' :: natDigits n
  else natDigits n

/-- Parse a digit string (1 to `maxLen` digits) as in `strptime` field
parsing: all characters must be decimal digits. -/
def digitsToNat? (maxLen : Nat) (l : List Char) : Option Nat :=
  if l.isEmpty || maxLen < l.length || !(l.all Char.isDigit) then none
  else some (l.foldl (fun acc c => acc * 10 + (c.toNat - 48)) 0)

/-- A parsed `datetime` value (what `strptime("%Y-%m-%d %H:%M:%S")`
produces). -/
structure DT where
  y : Nat
  mo : Nat
  d : Nat
  h : Nat
  mi : Nat
  s : Nat
deriving DecidableEq, Repr

/-- Model of `datetime.strptime(ts, "%Y-%m-%d %H:%M:%S")`
(alarm_default_validator.py:132): exactly one space, three dash-separated
date fields, three colon-separated time fields, fields within `strptime`
ranges; `none` models the `ValueError` branch. -/
def parseDT (ts : String) : Option DT :=
  match splitOnChar ' ' ts.data with
  | [dpart, tpart] =>
    match splitOnChar '-' dpart, splitOnChar ':' tpart with
    | [ys, mos, ds], [hs, mis, ss] =>
      match digitsToNat? 4 ys, digitsToNat? 2 mos, digitsToNat? 2 ds,
            digitsToNat? 2 hs, digitsToNat? 2 mis, digitsToNat? 2 ss with
      | some y, some mo, some d, some h, some mi, some s =>
        if 1 ≤ mo && mo ≤ 12 && 1 ≤ d && d ≤ 31 && h ≤ 23 && mi ≤ 59 && s ≤ 59
        then some ⟨y, mo, d, h, mi, s⟩ else none
      | _, _, _, _, _, _ => none
    | _, _ => none
  | _ => none

/-- `dt.strftime("%Y-%m-%d")` (alarm_default_validator.py:133). -/
def renderDate (v : DT) : String :=
  ⟨pad4 v.y ++ '-' :: pad2 v.mo ++ '-' :: pad2 v.d⟩

/-- `dt.strftime("%H:%M:%S")` (alarm_default_validator.py:134). -/
def renderTime (v : DT) : String :=
  ⟨pad2 v.h ++ ':' :: pad2 v.mi ++ ':' :: pad2 v.s⟩

/-- Full canonical `"YYYY-MM-DD HH:MM:SS"` rendering of a parsed value. -/
def renderDT (v : DT) : String := renderDate v ++ " " ++ renderTime v

/-- A timestamp string is canonical when it parses and re-rendering it
reproduces it exactly. -/
def canonicalTs (s : String) : Bool :=
  match parseDT s with
  | some v => renderDT v == s
  | none => false

/-! ## Data model

One cached pandas DataFrame row per monitor alarm.  NaN cells are
`Option.none`; the `Classification` cell can hold NaN/None, a Python
bool, or a string (`get_alarms_for_date` and `get_alarm_annotation`
type-sniff exactly these three shapes). -/

/-- Value stored in the `Classification` column. -/
inductive CellVal where
  | null : CellVal
  | bool (b : Bool) : CellVal
  | str (s : String) : CellVal
deriving DecidableEq, Repr

/-- One nursing-documentation record (an element of the list stored in the
`NursingRecords_ba30` column).  The five compared fields are dict lookups
with default `""` in `compare_records`, hence `Option String`;
`recordedAtSec` is the record's recorded-at instant in seconds (used only
by the spec-modelled ingestion step that builds the stored list). -/
structure NRec where
  diagProtocol : Option String := none
  intervention : Option String := none
  activity : Option String := none
  attrCode : Option String := none
  attrValue : Option String := none
  recordedAtSec : Int := 0
deriving DecidableEq, Repr

/-- One row of the Reference True-Alarm Table
(`AlarmValidator.load_true_alarm_records` stores all five columns as
strings, stripped at load time). -/
structure RefRec where
  diagProtocol : String := ""
  intervention : String := ""
  activity : String := ""
  attrCode : String := ""
  attrValue : String := ""
deriving DecidableEq, Repr

/-- One cached DataFrame row.  `idx` is the pandas index label (unique:
the pickled frames carry a RangeIndex).  `timeStamp` is `str(TimeStamp)`;
rows of real data always carry a timestamp, so it is not optional.
`label` models the `Label` column (a list of device label strings; the
scalar case is a singleton list). -/
structure Row where
  idx : Nat := 0
  timeStamp : String
  admissionIn : Option String := none
  admissionOut : Option String := none
  classification : CellVal := .null
  comment : Option String := none
  isSelected : Bool := false
  isView : Option Bool := some true
  label : List String := []
  severityColor : Option String := none
  severity : Option String := none
  nursingRecords : Option (List NRec) := none
deriving DecidableEq, Repr

/-- The alarm dictionary built by `get_alarms_for_date`
(data_structure.py:464-472). -/
structure AlarmOut where
  time : String
  color : String
  severity : String
  label : String
  classification : Option Bool
  comment : String
  rowIdx : Nat
deriving DecidableEq, Repr

/-- An admission period dictionary (data_structure.py:297-303). -/
structure Period where
  id : String
  start : String
  stop : String
deriving DecidableEq, Repr

/-- The result of `get_alarm_annotation`. -/
structure AnnView where
  classification : Option Bool
  comment : String
deriving DecidableEq, Repr

/-! ## Generic list helpers (stable sort, first-seen dedup, point update) -/

/-- Lexicographic comparison of char lists by code point — the ordering
Python uses on strings. -/
def listLtB : List Char → List Char → Bool
  | [], [] => false
  | [], _ :: _ => true
  | _ :: _, [] => false
  | a :: as, b :: bs =>
    if a.toNat < b.toNat then true
    else if b.toNat < a.toNat then false
    else listLtB as bs

/-- Python `a < b` on strings. -/
def strLtB (a b : String) : Bool := listLtB a.data b.data

/-- Strict comparison on integers as a boolean. -/
def intLtB (a b : Int) : Bool := decide (a < b)

/-- Stable insertion of `a` into `l` by key: `a` goes in front of the
first element whose key is not smaller (so an element inserted by
`isortK` — which folds from the right — precedes later equal keys). -/
def insertK {α β : Type} (lt : β → β → Bool) (key : α → β) (a : α) :
    List α → List α
  | [] => [a]
  | b :: t => if lt (key b) (key a) then b :: insertK lt key a t else a :: b :: t

/-- Stable sort by key — the behaviour of Python `sorted(l, key=key)`
(CPython's sort is stable, and any stable sort by the same key yields the
same list). -/
def isortK {α β : Type} (lt : β → β → Bool) (key : α → β) : List α → List α
  | [] => []
  | a :: t => insertK lt key a (isortK lt key t)

/-- First-seen-wins dedup by key, as `drop_duplicates(keep='first')`. -/
def dedupByAux {α β : Type} [DecidableEq β] (key : α → β) (seen : List β) :
    List α → List α
  | [] => []
  | a :: t =>
    if key a ∈ seen then dedupByAux key seen t
    else a :: dedupByAux key (key a :: seen) t

/-- First-seen-wins dedup by key. -/
def dedupBy {α β : Type} [DecidableEq β] (key : α → β) (l : List α) : List α :=
  dedupByAux key [] l

/-- Replace the element at position `i` by `f` of it (`df.loc[idx, col] =`
updates on a unique index). -/
def updateAt {α : Type} : List α → Nat → (α → α) → List α
  | [], _, _ => []
  | a :: t, 0, f => f a :: t
  | a :: t, i + 1, f => a :: updateAt t i f

/-! ## Patient Record Store: load and save (data_structure.py) -/

/-- `_load_patient_data` after the file is read (data_structure.py:117-149):
keep rows with `isView.fillna(False) == True`, then drop exact-duplicate
timestamps keeping the first; a frame left empty is discarded (`None`).
The `isView` column is present in this data. -/
def loadPatientData (raw? : Option (List Row)) : Option (List Row) :=
  match raw? with
  | none => none
  | some raw =>
    let flt := raw.filter (fun r => r.isView.getD false == true)
    let ded := dedupBy (fun r => r.timeStamp) flt
    if ded.isEmpty then none else some ded

/-- The per-row write-back of `_save_patient_data_sync`
(data_structure.py:166-191): for every original on-disk row whose index
is cached, copy the `Classification`, `Comment` and `isSelected` cells
from the cache; all other rows and columns keep their on-disk values. -/
def mergeSave (original cache : List Row) : List Row :=
  original.map (fun orig =>
    match cache.find? (fun c => c.idx == orig.idx) with
    | some c =>
      { orig with classification := c.classification,
                  comment := c.comment,
                  isSelected := c.isSelected }
    | none => orig)

/-- `_save_patient_data_sync` (data_structure.py:158-207): a patient that
is not cached saves nothing and reports `False`; otherwise the merged
frame is written, which succeeds exactly when the storage is writable
(the `except` branch reports `False` and leaves the disk unchanged).
Returns the disk contents afterwards and the reported boolean. -/
def savePatientDataSync (cache? : Option (List Row)) (disk : Option (List Row))
    (writable : Bool) : Option (List Row) × Bool :=
  match cache? with
  | none => (disk, false)
  | some cache =>
    let merged := match disk with
      | some orig => mergeSave orig cache
      | none => cache
    if writable then (some merged, true) else (disk, false)

/-! ## Classification read / write (data_structure.py:649-751)

Both `get_alarm_annotation` and `set_alarm_annotation` locate their row
with the same three-stage mask: exact `str(TimeStamp) == "date time"`
equality; failing that, rows containing `"date time"` as a substring;
failing that, rows containing both `date` and `time` as substrings.  The
first row of the first non-empty mask wins. -/

/-- The row predicate of the selected mask stage (each candidate reads
only the timestamp string). -/
def annPred (df : List Row) (dateStr timeStr : String) : Row → Bool :=
  if df.any (fun r => r.timeStamp == dateStr ++ " " ++ timeStr) then
    fun r => r.timeStamp == dateStr ++ " " ++ timeStr
  else if df.any (fun r => strContains r.timeStamp (dateStr ++ " " ++ timeStr)) then
    fun r => strContains r.timeStamp (dateStr ++ " " ++ timeStr)
  else
    fun r => strContains r.timeStamp dateStr && strContains r.timeStamp timeStr

/-- The tri-state view of a `Classification` cell taken by the readers
(data_structure.py:436-448 and 675-687): NaN is unset, a bool stands,
and a string is compared case-insensitively against true/false. -/
def clsOfCell : CellVal → Option Bool
  | .null => none
  | .bool b => some b
  | .str s =>
    if pyLower s == "true" then some true
    else if pyLower s == "false" then some false
    else none

/-- `get_alarm_annotation` (data_structure.py:649-699).  Missing patient
data or no matching row degrade to `{classification: None, comment: ''}`. -/
def getAlarmAnn (df? : Option (List Row)) (dateStr timeStr : String) : AnnView :=
  match df? with
  | none => ⟨none, ""⟩
  | some df =>
    match df.find? (annPred df dateStr timeStr) with
    | none => ⟨none, ""⟩
    | some row => ⟨clsOfCell row.classification, row.comment.getD ""⟩

/-- The cell written by `set_alarm_annotation` for a tri-state
classification argument (the annotator passes a bool or None). -/
def cellOfCls : Option Bool → CellVal
  | none => .null
  | some b => .bool b

/-- The in-place row update of `set_alarm_annotation`
(data_structure.py:740-743): write `Classification` and `Comment`, and
set `isSelected` when the classification is not None. -/
def applyAnn (c : Option Bool) (s : String) (r : Row) : Row :=
  { r with classification := cellOfCls c,
           comment := some s,
           isSelected := if c.isSome then true else r.isSelected }

/-- `set_alarm_annotation` (data_structure.py:701-751): `False` when the
patient's data cannot be loaded or no mask stage matches; otherwise the
first matching row is updated in the in-memory cache, a background save
is enqueued, and `True` is returned (before any durable write runs).
Returns the cache afterwards and the boolean. -/
def setAlarmAnn (df? : Option (List Row)) (dateStr timeStr : String)
    (c : Option Bool) (s : String) : Option (List Row) × Bool :=
  match df? with
  | none => (none, false)
  | some df =>
    if df.any (annPred df dateStr timeStr) then
      (some (updateAt df (df.findIdx (annPred df dateStr timeStr)) (applyAnn c s)),
       true)
    else (some df, false)

/-! ## Admission periods, dates, per-date alarms (data_structure.py:270-474) -/

/-- `get_admission_periods` (data_structure.py:270-303): rows having BOTH
`AdmissionIn` and `AdmissionOut` non-null contribute their deduplicated
(in, out) pair as a period `{id: "start_end"}`; if none do, a single
synthetic default period is returned. -/
def getAdmissionPeriods (df? : Option (List Row)) : List Period :=
  match df? with
  | none => []
  | some df =>
    let pairs := (df.filter
        (fun r => r.admissionIn.isSome && r.admissionOut.isSome)).map
        (fun r => (r.admissionIn.getD "", r.admissionOut.getD ""))
    let ps := (dedupBy id pairs).map (fun p =>
      let s := dateOf p.1
      let e := dateOf p.2
      { id := s ++ "_" ++ e, start := s, stop := e })
    if ps.isEmpty then [⟨"default", "N/A", "N/A"⟩] else ps

/-- The per-row admission check of `get_available_dates` and
`get_alarms_for_date` (data_structure.py:324-350 and 381-407): an empty
or `default` id matches everything; otherwise the id is split at `_`
into expected start/end dates (both `None` when the split does not give
two parts) and the row's `AdmissionIn`/`AdmissionOut` date parts must
equal them (`None == None` holds). -/
def admRowOk (aid : String) (r : Row) : Bool :=
  if aid == "" || aid == "default" then true
  else
    let expect : Option String × Option String :=
      match splitOnChar '_' aid.data with
      | [a, b] => (some ⟨a⟩, some ⟨b⟩)
      | _ => (none, none)
    (r.admissionIn.map dateOf == expect.1) && (r.admissionOut.map dateOf == expect.2)

/-- `get_available_dates` (data_structure.py:305-360): dates of the rows
passing the admission check, as a sorted list of distinct strings
(Python collects a `set` and sorts it). -/
def getAvailableDates (df? : Option (List Row)) (aid : String) : List String :=
  match df? with
  | none => []
  | some df =>
    isortK strLtB id
      (dedupBy id ((df.filter (admRowOk aid)).map (fun r => dateOf r.timeStamp)))

/-- The alarm dictionary built from one row (data_structure.py:420-472). -/
def mkAlarmOut (r : Row) : AlarmOut :=
  { time := timeOf r.timeStamp,
    color := r.severityColor.getD "White",
    severity := r.severity.getD "",
    label := joinSep " / " r.label,
    classification := clsOfCell r.classification,
    comment := r.comment.getD "",
    rowIdx := r.idx }

/-- `get_alarms_for_date` (data_structure.py:362-474): rows passing the
admission check whose date part equals `dateStr`, in row order, then
stably sorted ascending by time string (`sorted(..., key=time)`). -/
def getAlarmsForDate (df? : Option (List Row)) (aid dateStr : String) :
    List AlarmOut :=
  match df? with
  | none => []
  | some df =>
    isortK strLtB (fun a => a.time)
      ((df.filter (fun r => admRowOk aid r && dateOf r.timeStamp == dateStr)).map
        mkAlarmOut)

/-! ## Nursing-record retrieval (data_structure.py:571-647) -/

/-- The fallback row match of `get_nursing_records_for_alarm`
(data_structure.py:592-596): equality, substring containment of the full
or microsecond-stripped timestamp, or prefix match of either. -/
def nrRowMatch (ts noMicro rowTs : String) : Bool :=
  ts == rowTs || strContains rowTs ts || strContains rowTs noMicro ||
    strStarts rowTs ts || strStarts rowTs noMicro

/-- Row lookup of `get_nursing_records_for_alarm`: exact timestamp match
first, then the fallback chain, first row wins. -/
def findNursingRow (df : List Row) (ts : String) : Option Row :=
  match df.find? (fun r => r.timeStamp == ts) with
  | some r => some r
  | none => df.find? (fun r => nrRowMatch ts (dropMicro ts) r.timeStamp)

/-- `get_nursing_records_for_alarm` (data_structure.py:571-647): missing
patient data, no matching row, or a NaN `NursingRecords_ba30` cell all
give `[]`; a stored list is returned as-is (`list(nursing_records)`). -/
def getNursingRecords (df? : Option (List Row)) (ts : String) : List NRec :=
  match df? with
  | none => []
  | some df =>
    match findNursingRow df ts with
    | none => []
    | some row => row.nursingRecords.getD []

/-! ## Waveform label lookup (data_structure.py:476-569) -/

/-- The fallback row match of `get_waveform_data`
(data_structure.py:486-493): both the date part and the time part of the
query timestamp occur in the row's timestamp string. -/
def wfRowMatch (ts rowTs : String) : Bool :=
  let timePart := match splitOnChar ' ' ts.data with
    | _ :: t :: _ => (⟨t⟩ : String)
    | _ => ts
  let datePart := match splitOnChar ' ' ts.data with
    | d :: _ :: _ => (⟨d⟩ : String)
    | _ => ""
  strContains rowTs datePart && strContains rowTs timePart

/-- Row lookup of `get_waveform_data`: exact match first, then the
date-and-time containment fallback. -/
def findWaveformRow (df : List Row) (ts : String) : Option Row :=
  match df.find? (fun r => r.timeStamp == ts) with
  | some r => some r
  | none => df.find? (fun r => wfRowMatch ts r.timeStamp)

/-- The `AlarmLabel` entry of the dictionary returned by
`get_waveform_data` (data_structure.py:557-567): the row's `Label` list
joined with `" / "` (empty list gives `""`); `none` models the function
returning `None` (missing data or no matching row). -/
def waveformAlarmLabel (df? : Option (List Row)) (ts : String) : Option String :=
  match df? with
  | none => none
  | some df =>
    (findWaveformRow df ts).map (fun r => joinSep " / " r.label)

/-! ## Auto-Classification Engine (alarm_default_validator.py) -/

/-- `AlarmValidator.compare_records` (alarm_default_validator.py:57-87):
the five columns are equal after `normalize_string`; a missing key reads
as `""`. -/
def compareRecords (n : NRec) (t : RefRec) : Bool :=
  normalizeString (n.diagProtocol.getD "") == normalizeString t.diagProtocol &&
  normalizeString (n.intervention.getD "") == normalizeString t.intervention &&
  normalizeString (n.activity.getD "") == normalizeString t.activity &&
  normalizeString (n.attrCode.getD "") == normalizeString t.attrCode &&
  normalizeString (n.attrValue.getD "") == normalizeString t.attrValue

/-- `AlarmValidator.validate_alarm` (alarm_default_validator.py:89-111):
first nursing record matching any reference row wins; empty input or no
match gives `(False, None)`. -/
def validateAlarm (refs : List RefRec) (nrs : List NRec) : Bool × Option NRec :=
  match nrs.find? (fun n => refs.any (fun t => compareRecords n t)) with
  | some n => (true, some n)
  | none => (false, none)

/-- `AlarmValidator.validate_and_save_alarm`
(alarm_default_validator.py:113-153): judge the alarm, re-render the
timestamp through `strptime`/`strftime` (a parse failure is caught and
nothing is saved), then store the verdict with an empty comment via
`set_alarm_annotation`.  Returns the patient frame afterwards and the
function's boolean. -/
def validateAndSaveAlarm (refs : List RefRec) (df : List Row)
    (alarmTs : String) (nrs : List NRec) : List Row × Bool :=
  let isTrue := (validateAlarm refs nrs).1
  match parseDT alarmTs with
  | none => (df, false)
  | some v =>
    match setAlarmAnn (some df) (renderDate v) (renderTime v) (some isTrue) "" with
    | (some df2, ok) => (df2, if ok then isTrue else false)
    | (none, _) => (df, false)

/-- The body of the innermost loop of `process_all_alarms`
(alarm_default_validator.py:185-205) for one alarm of one date: skip
when the stored annotation is already set, otherwise fetch the nursing
records for the alarm's timestamp and judge-and-save. -/
def stepAlarm (refs : List RefRec) (df : List Row) (dateStr timeStr : String) :
    List Row :=
  if (getAlarmAnn (some df) dateStr timeStr).classification.isSome then df
  else
    let ts := dateStr ++ " " ++ timeStr
    (validateAndSaveAlarm refs df ts (getNursingRecords (some df) ts)).1

/-- The per-date loop of `process_all_alarms`: the alarm list is computed
once from the frame at loop entry, then each alarm is processed against
the evolving frame. -/
def runDate (refs : List RefRec) (aid dateStr : String) (df : List Row) :
    List Row :=
  (getAlarmsForDate (some df) aid dateStr).foldl
    (fun acc al => stepAlarm refs acc dateStr al.time) df

/-- The per-admission loop of `process_all_alarms`: dates are computed
once from the frame at loop entry. -/
def runAdmission (refs : List RefRec) (aid : String) (df : List Row) :
    List Row :=
  (getAvailableDates (some df) aid).foldl
    (fun acc d => runDate refs aid d acc) df

/-- The per-patient part of `process_all_alarms`
(alarm_default_validator.py:155-220): admission periods are computed
once; a patient whose data cannot be loaded contributes no admissions
and is left untouched.  The aggregate counters do not affect stored
data and are omitted. -/
def runPatient (refs : List RefRec) (df? : Option (List Row)) :
    Option (List Row) :=
  df?.map (fun df =>
    (getAdmissionPeriods (some df)).foldl
      (fun acc p => runAdmission refs p.id acc) df)

/-- `process_all_alarms` over the whole store: each patient's cached
frame is processed independently. -/
def runEngine (refs : List RefRec) (store : List (String × Option (List Row))) :
    List (String × Option (List Row)) :=
  store.map (fun e => (e.1, runPatient refs e.2))

/-! ## Alarm Filter Pipeline (components/alarm_filters.py) -/

/-- `AlarmFilter.is_technical_alarm` (components/alarm_filters.py:108-122)
over a loaded technical-label set (already normalized at load). -/
def isTechnicalAlarm (tech : List String) (label : String) : Bool :=
  if label == "" then false else tech.contains (normalizeAlarmLabel label)

/-- Multi-character split used for `raw.split(" / ")`
(components/alarm_filters.py:178); fuel-driven so it kernel-reduces. -/
def splitOnSegAux (sep : List Char) : Nat → List Char → List (List Char)
  | _, [] => [[]]
  | 0, l => [l]
  | fuel + 1, a :: t =>
    if sep.isPrefixOf (a :: t) then
      [] :: splitOnSegAux sep fuel ((a :: t).drop sep.length)
    else
      match splitOnSegAux sep fuel t with
      | [] => [[a]]
      | h :: t2 => (a :: h) :: t2

/-- Python `s.split(sep)` for a non-empty multi-character separator. -/
def splitOnSeg (sep : String) (s : String) : List String :=
  (splitOnSegAux sep.data (s.data.length + 1) s.data).map (fun l => ⟨l⟩)

/-- Token filter applied to each split part
(components/alarm_filters.py:180-194): strip it and keep it when it is
non-empty and neither `"None"` nor `"[]"`. -/
def keepLabelToken (s : String) : Option String :=
  let t := pyStrip s
  if t == "" || t == "None" || t == "[]" then none else some t

/-- The label extraction of `filter_technical_alarms` for the string
shape that `get_waveform_data` produces (components/alarm_filters.py:
173-194): split on `" / "` when present, else on `"/"`, else the single
stripped label; `None` (no waveform row) yields no labels.  The
list/tuple and other-object branches cannot arise from this store, whose
`AlarmLabel` is always a string. -/
def parseAlarmLabels (raw? : Option String) : List String :=
  match raw? with
  | none => []
  | some s =>
    if strContains s " / " then (splitOnSeg " / " s).filterMap keepLabelToken
    else if strContains s "/" then
      ((splitOnChar '/' s.data).map (fun l => (⟨l⟩ : String))).filterMap keepLabelToken
    else
      match keepLabelToken s with
      | some t => [t]
      | none => []

/-- The labels considered for one alarm: the `AlarmLabel` of the waveform
snapshot at `"date time"`, parsed. -/
def alarmLabelsOf (df? : Option (List Row)) (dateStr : String) (al : AlarmOut) :
    List String :=
  parseAlarmLabels (waveformAlarmLabel df? (dateStr ++ " " ++ al.time))

/-- The keep decision of `filter_technical_alarms`
(components/alarm_filters.py:207-245): an alarm with no labels passes;
otherwise it passes unless every label is technical (clinical count zero
with at least one technical label). -/
def keepNonTechnical (tech : List String) (df? : Option (List Row))
    (dateStr : String) (al : AlarmOut) : Bool :=
  let labels := alarmLabelsOf df? dateStr al
  if labels.isEmpty then true
  else
    let technicalCount := labels.countP (fun l => isTechnicalAlarm tech l)
    let clinicalCount := labels.countP (fun l => !isTechnicalAlarm tech l)
    !(clinicalCount == 0 && technicalCount > 0)

/-- `AlarmFilter.filter_technical_alarms`
(components/alarm_filters.py:124-248): with an empty technical set the
input is returned unchanged; otherwise alarms are kept in order by the
all-or-nothing rule. -/
def filterTechnicalAlarms (tech : List String) (df? : Option (List Row))
    (dateStr : String) (alarms : List AlarmOut) : List AlarmOut :=
  if tech.isEmpty then alarms
  else alarms.filter (keepNonTechnical tech df? dateStr)

/-! ## Nursing-record filter (components/alarm_filters.py:250-328)

`has_nursing_records_for_alarm` still addresses the legacy JSON layout:
it loads the patient's data — now a pandas DataFrame — and then runs
`if not patient_info:`.  Truth-testing a DataFrame raises
`ValueError: The truth value of a DataFrame is ambiguous`, which the
surrounding `try/except` turns into `return False`; even if it did not
raise, `DataFrame.get("nursing_records", {})` returns the default `{}`
because no such column exists, and iterating `{}` also ends in
`return False`.  The exception flow is modelled with `Except`. -/

/-- pandas truth-testing of a DataFrame: always raises. -/
def dataFrameTruth (_df : List Row) : Except String Bool :=
  .error "The truth value of a DataFrame is ambiguous"

/-- `DataFrame.get("nursing_records", {})`: the frame has no such column,
so the default empty dict comes back (modelled as an empty association
list of recorded-at slots). -/
def dfGetNursingDict (_df : List Row) : List (String × List NRec) := []

/-- The `try` body of `has_nursing_records_for_alarm`
(components/alarm_filters.py:293-324). -/
def hasNursingRecsBody (df? : Option (List Row)) (ts : String) :
    Except String Bool := do
  match parseDT ts with
  | none => Except.error "strptime"
  | some _ =>
    match df? with
    | none => pure false
    | some df =>
      let truthy ← dataFrameTruth df
      if !truthy then pure false
      else
        let slots := dfGetNursingDict df
        pure (slots.any (fun slot => !slot.2.isEmpty))

/-- `has_nursing_records_for_alarm` (components/alarm_filters.py:282-328):
the `except` handler returns `False`. -/
def hasNursingRecsForAlarm (df? : Option (List Row)) (ts : String) : Bool :=
  match hasNursingRecsBody df? ts with
  | .ok b => b
  | .error _ => false

/-- `filter_alarms_with_nursing_records`
(components/alarm_filters.py:250-280): keep the alarms for which
`has_nursing_records_for_alarm` holds at `"date time"`. -/
def filterAlarmsWithNursing (df? : Option (List Row)) (dateStr : String)
    (alarms : List AlarmOut) : List AlarmOut :=
  alarms.filter (fun al => hasNursingRecsForAlarm df? (dateStr ++ " " ++ al.time))

/-! ## Spec-modelled components

Two pieces of this repository live outside `src/`: the data-processing
step that builds the `NursingRecords_ba30` column, and the
`decode_base64_waveform` codec that `main.py:332` calls on the store.
Both are modelled from the spec (sections 4.1 and 4.3). -/

/-- Whether a nursing record's recorded-at instant lies within
`windowMin` minutes of the alarm instant, inclusive on both ends
(spec section 4.3). -/
def inWindow (alarmSec : Int) (windowMin : Int) (r : NRec) : Bool :=
  decide (alarmSec - windowMin * 60 ≤ r.recordedAtSec) &&
  decide (r.recordedAtSec ≤ alarmSec + windowMin * 60)

/-- Modelled from the spec: the ingestion step (in `data_processing/`,
not under `src/`) that fills `NursingRecords_ba30` — every nursing
record of the patient whose recorded time is within the window of the
alarm timestamp, inclusive on both ends, flattened into one list in
storage order and stably sorted ascending by recorded time
(spec section 4.3). -/
def ba30 (allRecs : List NRec) (alarmSec : Int) (windowMin : Int := 30) :
    List NRec :=
  isortK intLtB (fun r => r.recordedAtSec) (allRecs.filter (inWindow alarmSec windowMin))

/-- A base64 alphabet character for a sextet value. -/
def b64Char (v : Nat) : Char :=
  if v < 26 then Char.ofNat (65 + v)
  else if v < 52 then Char.ofNat (97 + (v - 26))
  else if v < 62 then Char.ofNat (48 + (v - 52))
  else if v == 62 then '+'
  else '/'

/-- Inverse of the base64 alphabet; `none` for an invalid character. -/
def b64Val (c : Char) : Option Nat :=
  if 'A' ≤ c && c ≤ 'Z' then some (c.toNat - 65)
  else if 'a' ≤ c && c ≤ 'z' then some (c.toNat - 97 + 26)
  else if '0' ≤ c && c ≤ '9' then some (c.toNat - 48 + 52)
  else if c == '+' then some 62
  else if c == '/' then some 63
  else none

/-- Modelled from the spec: base64 encoding of a byte sequence (the
transport form of section 4.1), producing the usual 4-character groups
with `=` padding. -/
def b64Encode : List Nat → List Char
  | [] => []
  | [b1] =>
    let n := b1 * 65536
    [b64Char (n / 262144), b64Char (n / 4096 % 64), '=', '=']
  | [b1, b2] =>
    let n := b1 * 65536 + b2 * 256
    [b64Char (n / 262144), b64Char (n / 4096 % 64), b64Char (n / 64 % 64), '=']
  | b1 :: b2 :: b3 :: rest =>
    let n := b1 * 65536 + b2 * 256 + b3
    b64Char (n / 262144) :: b64Char (n / 4096 % 64) ::
      b64Char (n / 64 % 64) :: b64Char (n % 64) :: b64Encode rest

/-- Modelled from the spec: base64 decoding; `none` on any malformed
input (wrong group length, invalid character, misplaced padding). -/
def b64Decode : List Char → Option (List Nat)
  | [] => some []
  | c1 :: c2 :: c3 :: c4 :: rest =>
    if c3 == '=' then
      if c4 == '=' && rest.isEmpty then do
        let v1 ← b64Val c1
        let v2 ← b64Val c2
        if v2 % 16 == 0 then some [(v1 * 262144 + v2 * 4096) / 65536] else none
      else none
    else if c4 == '=' then
      if rest.isEmpty then do
        let v1 ← b64Val c1
        let v2 ← b64Val c2
        let v3 ← b64Val c3
        if v3 % 4 == 0 then
          some [(v1 * 262144 + v2 * 4096 + v3 * 64) / 65536,
                (v1 * 262144 + v2 * 4096 + v3 * 64) / 256 % 256]
        else none
      else none
    else do
      let v1 ← b64Val c1
      let v2 ← b64Val c2
      let v3 ← b64Val c3
      let v4 ← b64Val c4
      let tail ← b64Decode rest
      some ((v1 * 262144 + v2 * 4096 + v3 * 64 + v4) / 65536 ::
            (v1 * 262144 + v2 * 4096 + v3 * 64 + v4) / 256 % 256 ::
            (v1 * 262144 + v2 * 4096 + v3 * 64 + v4) % 256 :: tail)
  | _ => none

/-- The eight little-endian bytes of one float64 bit pattern (the
`struct.pack('<d', x)` byte order numpy uses). -/
def sampleBytes (v : Nat) : List Nat :=
  [v % 256, v / 256 % 256, v / 65536 % 256, v / 16777216 % 256,
   v / 4294967296 % 256, v / 1099511627776 % 256,
   v / 281474976710656 % 256, v / 72057594037927936 % 256]

/-- Rebuild one float64 bit pattern from its eight little-endian bytes. -/
def sampleOfBytes (b1 b2 b3 b4 b5 b6 b7 b8 : Nat) : Nat :=
  b1 + 256 * b2 + 65536 * b3 + 16777216 * b4 + 4294967296 * b5 +
    1099511627776 * b6 + 281474976710656 * b7 + 72057594037927936 * b8

/-- Group a byte stream into 8-byte little-endian float64 bit patterns;
`none` when the length is not a multiple of 8 (numpy `frombuffer`
raises there, which the caller turns into an empty array). -/
def bytesToSamples : List Nat → Option (List Nat)
  | [] => some []
  | b1 :: b2 :: b3 :: b4 :: b5 :: b6 :: b7 :: b8 :: rest => do
    let tail ← bytesToSamples rest
    some (sampleOfBytes b1 b2 b3 b4 b5 b6 b7 b8 :: tail)
  | _ => none

/-- Modelled from the spec (section 4.1): `encode` — each float64 sample
(carried as its 64-bit pattern) becomes 8 little-endian bytes, and the
byte stream is base64-encoded into the transport string. -/
def encodeWaveform (samples : List Nat) : String :=
  ⟨b64Encode (samples.flatMap sampleBytes)⟩

/-- Modelled from the spec (section 4.1): `decode_base64_waveform` — the
inverse of `encodeWaveform`; any malformed input yields the empty
sample sequence instead of raising. -/
def decodeWaveform (blob : String) : List Nat :=
  match b64Decode blob.data with
  | none => []
  | some bytes =>
    match bytesToSamples bytes with
    | none => []
    | some samples => samples

/-! ## Proof-layer definitions: well-formed frames, engine observables,
and concrete frames used in counterexamples and witnesses -/

/-- The non-default periods `get_admission_periods` derives (proof-side
abbreviation of the body of `getAdmissionPeriods`). -/
def derivedPeriods (df : List Row) : List Period :=
  (dedupBy id ((df.filter
      (fun r => r.admissionIn.isSome && r.admissionOut.isSome)).map
      (fun r => (r.admissionIn.getD "", r.admissionOut.getD "")))).map
    (fun p =>
      { id := dateOf p.1 ++ "_" ++ dateOf p.2, start := dateOf p.1,
        stop := dateOf p.2 })

/-- Well-formed cached frame: canonical, pairwise-distinct timestamps. -/
def goodDf (df : List Row) : Prop :=
  (∀ r ∈ df, canonicalTs r.timeStamp = true) ∧
    (df.map (fun r => r.timeStamp)).Nodup

instance goodDfDec (df : List Row) : Decidable (goodDf df) :=
  @instDecidableAnd _ _ (List.decidableBAll _ df) (List.nodupDecidable _)

/-- The columns the engine never writes. -/
def rowKey (r : Row) : String × Option String × Option String × List NRec :=
  (r.timeStamp, r.admissionIn, r.admissionOut, r.nursingRecords.getD [])

/-- Some row carries exactly this timestamp string. -/
def tsHas (df : List Row) (ts : String) : Prop :=
  ts ∈ df.map (fun r => r.timeStamp)

/-- The classification at the first exact-timestamp row is set. -/
def annS (df : List Row) (ts : String) : Bool :=
  match df.find? (fun r => r.timeStamp == ts) with
  | some r => (clsOfCell r.classification).isSome
  | none => false

/-- The alarm times the engine iterates for one date. -/
def alarmTimes (df : List Row) (aid dd : String) : List String :=
  (getAlarmsForDate (some df) aid dd).map (fun a => a.time)

/-- The per-admission fold of `process_all_alarms`, at one patient. -/
def runPatientDf (refs : List RefRec) (df : List Row) : List Row :=
  (getAdmissionPeriods (some df)).foldl
    (fun acc p => runAdmission refs p.id acc) df

/-- Reference record matching an empty nursing-record comparison: all
five attributes agree, so `validate_alarm` judges True. -/
def refMatch : RefRec :=
  { diagProtocol := "dx", intervention := "iv", activity := "ac",
    attrCode := "cd", attrValue := "vl" }

/-- A nursing record agreeing with `refMatch` on all five attributes. -/
def recMatch : NRec :=
  { diagProtocol := some "dx", intervention := some "iv",
    activity := some "ac", attrCode := some "cd", attrValue := some "vl" }

def rB : Row := { idx := 0, timeStamp := "2025-05-01 02:03:04" }

def rBeta : Row :=
  { idx := 1, timeStamp := "2025-05-01 02:3:04",
    nursingRecords := some [recMatch] }

def rAlpha : Row :=
  { idx := 2, timeStamp := "2025-05-01 2:03:04 seen 2025-05-11 06:00:00" }

def rG : Row := { idx := 3, timeStamp := "2025-05-11 6:0:0" }

/-- The aliasing frame: under the fuzzy (substring) timestamp search the
annotation lookup and the canonical-timestamp write resolve to
different rows, so the second run re-processes an alarm the first run
already wrote and flips a classification left by the first run. -/
def df0 : List Row := [rB, rBeta, rAlpha, rG]

def c3wRow1 : Row :=
  { idx := 0, timeStamp := "2025-05-01 02:03:04",
    nursingRecords := some [recMatch] }

def c3wRow2 : Row := { idx := 1, timeStamp := "2025-05-01 03:04:05" }

/-- A canonical store: every timestamp is `YYYY-MM-DD HH:MM:SS` and
timestamps are pairwise distinct. -/
def c3wStore : List (String × Option (List Row)) :=
  [("p1", some [c3wRow1, c3wRow2])]

/-! # Lemmas -/

/-! ## Generic list lemmas -/

theorem updateAt_map {α β : Type} (f : α → α) (g : α → β)
    (hg : ∀ a, g (f a) = g a) :
    ∀ (l : List α) (i : Nat), (updateAt l i f).map g = l.map g
  | [], _ => rfl
  | _ :: _, 0 => by simp [updateAt, hg]
  | a :: t, i + 1 => by simp [updateAt, updateAt_map f g hg t i]

theorem updateAt_getElem? {α : Type} (f : α → α) :
    ∀ (l : List α) (i j : Nat),
      (updateAt l i f)[j]? = if i = j then (l[j]?).map f else l[j]?
  | [], i, j => by simp [updateAt]
  | a :: t, 0, 0 => by simp [updateAt]
  | a :: t, 0, j + 1 => by simp [updateAt]
  | a :: t, i + 1, 0 => by simp [updateAt]
  | a :: t, i + 1, j + 1 => by
    simpa [updateAt] using updateAt_getElem? f t i j

theorem updateAt_length {α : Type} (f : α → α) :
    ∀ (l : List α) (i : Nat), (updateAt l i f).length = l.length
  | [], _ => rfl
  | _ :: _, 0 => rfl
  | _ :: t, i + 1 => by simp [updateAt, updateAt_length f t i]

/-- Locating-and-updating coherence: when some element satisfies `p` and
`f` does not change `p`-status, updating at `findIdx p` rewrites exactly
the element `find? p` returns. -/
theorem find?_updateAt_findIdx {α : Type} (p : α → Bool) (f : α → α)
    (hp : ∀ a, p (f a) = p a) :
    ∀ (l : List α), l.any p = true →
      ∃ a, l.find? p = some a ∧
        (updateAt l (l.findIdx p) f).find? p = some (f a)
  | [], h => by simp at h
  | a :: t, h => by
    by_cases ha : p a
    · exact ⟨a, by simp [List.find?_cons, ha],
        by simp [List.findIdx_cons, ha, updateAt, List.find?_cons, hp]⟩
    · have h' : t.any p = true := by
        simpa [List.any_cons, ha] using h
      obtain ⟨b, h1, h2⟩ := find?_updateAt_findIdx p f hp t h'
      exact ⟨b, by simp [List.find?_cons, ha, h1],
        by simp [List.findIdx_cons, ha, updateAt, List.find?_cons, h2]⟩

/-- A filter-then-project pipeline only sees elements through the
projections, so two lists equal under a common key agree on it. -/
theorem filter_map_congr {α β γ : Type} (k : α → β) (p : α → Bool) (h : α → γ)
    (hp : ∀ a b, k a = k b → p a = p b) (hh : ∀ a b, k a = k b → h a = h b) :
    ∀ (l m : List α), l.map k = m.map k →
      (l.filter p).map h = (m.filter p).map h
  | [], [], _ => rfl
  | [], _ :: _, hk => by simp at hk
  | _ :: _, [], hk => by simp at hk
  | a :: l, b :: m, hk => by
    have hk1 : k a = k b := by simpa using congrArg (fun x => x.headD (k a)) hk
    have hk2 : l.map k = m.map k := by
      simpa using congrArg List.tail hk
    have ih := filter_map_congr k p h hp hh l m hk2
    by_cases hpa : p a
    · have hpb : p b = true := (hp a b hk1) ▸ hpa
      simp [List.filter_cons, hpa, hpb, hh a b hk1, ih]
    · have hpb : p b = false := by
        have := hp a b hk1
        simp [hpa] at this
        simp [this]
      simp [List.filter_cons, hpa, hpb, ih]

theorem insertK_perm {α β : Type} (lt : β → β → Bool) (key : α → β) (a : α) :
    ∀ l : List α, (insertK lt key a l).Perm (a :: l)
  | [] => .refl _
  | b :: t => by
    by_cases hb : lt (key b) (key a)
    · simpa [insertK, hb] using
        ((insertK_perm lt key a t).cons b).trans (List.Perm.swap a b t)
    · simp [insertK, hb]

theorem isortK_perm {α β : Type} (lt : β → β → Bool) (key : α → β) :
    ∀ l : List α, (isortK lt key l).Perm l
  | [] => .refl _
  | a :: t =>
    (insertK_perm lt key a (isortK lt key t)).trans
      ((isortK_perm lt key t).cons a)

theorem mem_isortK {α β : Type} (lt : β → β → Bool) (key : α → β)
    (l : List α) (x : α) : x ∈ isortK lt key l ↔ x ∈ l :=
  (isortK_perm lt key l).mem_iff

/-- Stable sorting is key-determined: lists equal under the key sort to
lists equal under the key. -/
theorem insertK_map_key {α β : Type} (lt : β → β → Bool) (key : α → β)
    (a b : α) (hab : key a = key b) :
    ∀ (l m : List α), l.map key = m.map key →
      (insertK lt key a l).map key = (insertK lt key b m).map key
  | [], [], _ => by simp [insertK, hab]
  | [], _ :: _, hk => by simp at hk
  | _ :: _, [], hk => by simp at hk
  | x :: l, y :: m, hk => by
    have hk1 : key x = key y := by simpa using congrArg (fun z => z.headD (key x)) hk
    have hk2 : l.map key = m.map key := by simpa using congrArg List.tail hk
    rw [insertK, insertK]
    by_cases hx : lt (key x) (key a)
    · have hy : lt (key y) (key b) = true := by rw [← hk1, ← hab]; exact hx
      rw [if_pos hx, if_pos hy, List.map_cons, List.map_cons, hk1,
        insertK_map_key lt key a b hab l m hk2]
    · have hy : lt (key y) (key b) = false := by rw [← hk1, ← hab]; simpa using hx
      rw [if_neg (by simp [hx]), if_neg (by simp [hy])]
      simp only [List.map_cons]
      rw [hab, hk1, hk2]

theorem isortK_map_key {α β : Type} (lt : β → β → Bool) (key : α → β) :
    ∀ (l m : List α), l.map key = m.map key →
      (isortK lt key l).map key = (isortK lt key m).map key
  | [], [], _ => rfl
  | [], _ :: _, hk => by simp at hk
  | _ :: _, [], hk => by simp at hk
  | x :: l, y :: m, hk => by
    have hk1 : key x = key y := by simpa using congrArg (fun z => z.headD (key x)) hk
    have hk2 : l.map key = m.map key := by simpa using congrArg List.tail hk
    exact insertK_map_key lt key x y hk1 _ _ (isortK_map_key lt key l m hk2)

theorem pairwise_insertK {α β : Type} (lt : β → β → Bool) (key : α → β)
    (hasym : ∀ x y : β, lt x y = true → lt y x = false)
    (htrans : ∀ x y z : β, lt y x = false → lt z y = false → lt z x = false)
    (a : α) :
    ∀ l : List α, l.Pairwise (fun x y => lt (key y) (key x) = false) →
      (insertK lt key a l).Pairwise (fun x y => lt (key y) (key x) = false)
  | [], _ => by simp [insertK]
  | b :: t, hl => by
    rw [List.pairwise_cons] at hl
    by_cases hb : lt (key b) (key a)
    · rw [insertK]
      simp only [hb, if_pos]
      rw [List.pairwise_cons]
      refine ⟨?_, pairwise_insertK lt key hasym htrans a t hl.2⟩
      intro x hx
      rcases List.mem_cons.1 (((insertK_perm lt key a t).mem_iff).1 hx) with hx | hx
      · subst hx; exact hasym _ _ hb
      · exact hl.1 x hx
    · rw [insertK, if_neg (by simp [hb])]
      rw [List.pairwise_cons]
      refine ⟨?_, List.pairwise_cons.2 hl⟩
      intro x hx
      rcases List.mem_cons.1 hx with hx | hx
      · subst hx; simpa using hb
      · exact htrans _ (key b) _ (by simpa using hb) (hl.1 x hx)

theorem pairwise_isortK {α β : Type} (lt : β → β → Bool) (key : α → β)
    (hasym : ∀ x y : β, lt x y = true → lt y x = false)
    (htrans : ∀ x y z : β, lt y x = false → lt z y = false → lt z x = false) :
    ∀ l : List α,
      (isortK lt key l).Pairwise (fun x y => lt (key y) (key x) = false)
  | [] => by simp [isortK]
  | a :: t =>
    pairwise_insertK lt key hasym htrans a _
      (pairwise_isortK lt key hasym htrans t)

/-- Stability: among elements with one fixed key, `isortK` preserves the
input order exactly. -/
theorem filter_key_insertK {α β : Type} [DecidableEq β] (lt : β → β → Bool)
    (key : α → β) (k : β) (hirr : lt k k = false) (a : α) :
    ∀ l : List α,
      (insertK lt key a l).filter (fun x => key x == k) =
        if key a == k then a :: l.filter (fun x => key x == k)
        else l.filter (fun x => key x == k)
  | [] => by
    by_cases hak : key a == k <;> simp [insertK, List.filter_cons, hak]
  | b :: t => by
    by_cases hb : lt (key b) (key a)
    · by_cases hbk : key b == k
      · have hak : (key a == k) = false := by
          by_contra hak
          have hak' : key a = k := by
            cases h : (key a == k) with
            | false => exact absurd h hak
            | true => exact eq_of_beq h
          have hbk' : key b = k := eq_of_beq hbk
          rw [hbk', hak', hirr] at hb
          exact Bool.false_ne_true hb
        simp [insertK, hb, List.filter_cons, hbk, hak,
          filter_key_insertK lt key k hirr a t]
      · simp [insertK, hb, List.filter_cons, hbk,
          filter_key_insertK lt key k hirr a t]
    · by_cases hak : key a == k <;>
        simp [insertK, hb, List.filter_cons, hak]

theorem filter_key_isortK {α β : Type} [DecidableEq β] (lt : β → β → Bool)
    (key : α → β) (k : β) (hirr : lt k k = false) :
    ∀ l : List α,
      (isortK lt key l).filter (fun x => key x == k) =
        l.filter (fun x => key x == k)
  | [] => rfl
  | a :: t => by
    rw [isortK, filter_key_insertK lt key k hirr a _]
    by_cases hak : key a == k <;>
      simp [List.filter_cons, hak, filter_key_isortK lt key k hirr t]

theorem dedupByAux_sublist {α β : Type} [DecidableEq β] (key : α → β) :
    ∀ (seen : List β) (l : List α), (dedupByAux key seen l).Sublist l
  | _, [] => .slnil
  | seen, a :: t => by
    by_cases h : key a ∈ seen
    · exact .cons a (by simpa [dedupByAux, h] using dedupByAux_sublist key seen t)
    · simpa [dedupByAux, h] using (dedupByAux_sublist key (key a :: seen) t).cons₂ a

theorem dedupBy_sublist {α β : Type} [DecidableEq β] (key : α → β)
    (l : List α) : (dedupBy key l).Sublist l :=
  dedupByAux_sublist key [] l

/-- First-seen-wins: searching the deduplicated list for a key finds the
same element the raw list's first occurrence has. -/
theorem dedupByAux_find? {α β : Type} [DecidableEq β] (key : α → β) (k : β) :
    ∀ (seen : List β) (l : List α), k ∉ seen →
      (dedupByAux key seen l).find? (fun x => key x == k) =
        l.find? (fun x => key x == k)
  | _, [], _ => rfl
  | seen, a :: t, hk => by
    by_cases hak : key a = k
    · subst hak
      simp [dedupByAux, hk, List.find?_cons]
    · have hbeq : (key a == k) = false := by simpa using hak
      by_cases h1 : key a ∈ seen
      · simp [dedupByAux, h1, List.find?_cons, hbeq,
          dedupByAux_find? key k seen t hk]
      · have hk2 : k ∉ key a :: seen := by
          intro h
          rcases List.mem_cons.1 h with h | h
          · exact hak h.symm
          · exact hk h
        simp [dedupByAux, h1, List.find?_cons, hbeq,
          dedupByAux_find? key k (key a :: seen) t hk2]

theorem dedupByAux_keys_nodup {α β : Type} [DecidableEq β] (key : α → β) :
    ∀ (seen : List β) (l : List α),
      ((dedupByAux key seen l).map key).Nodup ∧
        ∀ x ∈ dedupByAux key seen l, key x ∉ seen
  | _, [] => ⟨List.nodup_nil, fun x hx => absurd hx (List.not_mem_nil x)⟩
  | seen, a :: t => by
    by_cases h : key a ∈ seen
    · rw [dedupByAux, if_pos h]
      exact dedupByAux_keys_nodup key seen t
    · obtain ⟨ih1, ih2⟩ := dedupByAux_keys_nodup key (key a :: seen) t
      rw [dedupByAux, if_neg h]
      refine ⟨?_, ?_⟩
      · rw [List.map_cons, List.nodup_cons]
        refine ⟨fun hmem => ?_, ih1⟩
        obtain ⟨x, hx, hkx⟩ := List.mem_map.1 hmem
        exact ih2 x hx (by simp [hkx])
      · intro x hx
        rcases List.mem_cons.1 hx with hx | hx
        · subst hx; exact h
        · intro hmem; exact ih2 x hx (by simp [hmem])

theorem dedupBy_keys_nodup {α β : Type} [DecidableEq β] (key : α → β)
    (l : List α) : ((dedupBy key l).map key).Nodup :=
  (dedupByAux_keys_nodup key [] l).1

theorem any_comp {α β : Type} (f : α → β) (q : β → Bool) :
    ∀ l : List α, l.any (fun a => q (f a)) = (l.map f).any q
  | [] => rfl
  | a :: t => by simp [List.any_cons, any_comp f q t]

/-! ## Annotation search and update lemmas -/

theorem any_ts_congr {df₁ df₂ : List Row}
    (h : df₁.map Row.timeStamp = df₂.map Row.timeStamp) (q : String → Bool) :
    df₁.any (fun r => q r.timeStamp) = df₂.any (fun r => q r.timeStamp) := by
  rw [any_comp Row.timeStamp q df₁, any_comp Row.timeStamp q df₂, h]

/-- Every mask stage reads a row only through its timestamp string. -/
theorem annPred_ts (df : List Row) (d t : String) (r₁ r₂ : Row)
    (h : r₁.timeStamp = r₂.timeStamp) :
    annPred df d t r₁ = annPred df d t r₂ := by
  unfold annPred
  by_cases h1 : df.any (fun r => r.timeStamp == d ++ " " ++ t) <;>
    by_cases h2 : df.any (fun r => strContains r.timeStamp (d ++ " " ++ t)) <;>
      simp [h1, h2, h]

/-- The selected mask stage depends on the frame only through its
timestamp column. -/
theorem annPred_congr (d t : String) {df₁ df₂ : List Row}
    (h : df₁.map Row.timeStamp = df₂.map Row.timeStamp) :
    annPred df₁ d t = annPred df₂ d t := by
  have e1 : df₁.any (fun r => r.timeStamp == d ++ " " ++ t) =
      df₂.any (fun r => r.timeStamp == d ++ " " ++ t) :=
    any_ts_congr h (fun x => x == d ++ " " ++ t)
  have e2 : df₁.any (fun r => strContains r.timeStamp (d ++ " " ++ t)) =
      df₂.any (fun r => strContains r.timeStamp (d ++ " " ++ t)) :=
    any_ts_congr h (fun x => strContains x (d ++ " " ++ t))
  unfold annPred
  rw [e1, e2]

@[simp] theorem applyAnn_timeStamp (c : Option Bool) (s : String) (r : Row) :
    (applyAnn c s r).timeStamp = r.timeStamp := rfl

@[simp] theorem clsOfCell_cellOfCls (c : Option Bool) :
    clsOfCell (cellOfCls c) = c := by
  cases c <;> rfl

/-- After a successful `set_alarm_annotation`, re-running the identical
search of `get_alarm_annotation` lands on the row just written. -/
theorem set_get_ann (df : List Row) (d t : String) (c : Option Bool) (s : String)
    (h : (setAlarmAnn (some df) d t c s).2 = true) :
    getAlarmAnn (setAlarmAnn (some df) d t c s).1 d t = ⟨c, s⟩ := by
  by_cases hany : df.any (annPred df d t)
  · have hset : setAlarmAnn (some df) d t c s =
        (some (updateAt df (df.findIdx (annPred df d t)) (applyAnn c s)), true) := by
      simp [setAlarmAnn, hany]
    set df' := updateAt df (df.findIdx (annPred df d t)) (applyAnn c s) with hdf'
    have hts : df'.map Row.timeStamp = df.map Row.timeStamp :=
      updateAt_map (applyAnn c s) Row.timeStamp (fun r => rfl) df
        (df.findIdx (annPred df d t))
    have hpred : annPred df' d t = annPred df d t := annPred_congr d t hts
    obtain ⟨r, _, hr2⟩ := find?_updateAt_findIdx (annPred df d t) (applyAnn c s)
      (fun a => annPred_ts df d t _ _ (applyAnn_timeStamp c s a)) df hany
    rw [hset]
    show getAlarmAnn (some df') d t = ⟨c, s⟩
    rw [getAlarmAnn, hpred, hr2]
    simp [applyAnn]
  · exfalso
    rw [setAlarmAnn] at h
    simp [hany] at h

/-- The boolean `set_alarm_annotation` returns is decided entirely by the
row search: true exactly when the data loaded and some mask stage hit. -/
theorem setAlarmAnn_true_iff (df? : Option (List Row)) (d t : String)
    (c : Option Bool) (s : String) :
    (setAlarmAnn df? d t c s).2 = true ↔
      ∃ df, df? = some df ∧ df.any (annPred df d t) = true := by
  cases df? with
  | none => simp [setAlarmAnn]
  | some df =>
    by_cases hany : df.any (annPred df d t)
    · simp only [setAlarmAnn, hany, if_pos]
      simp only [true_iff]
      exact ⟨df, rfl, hany⟩
    · rw [setAlarmAnn, if_neg (by simpa using hany)]
      refine ⟨fun h => by simp at h, ?_⟩
      rintro ⟨df2, hdf2, hpx⟩
      obtain rfl : df = df2 := by injection hdf2
      exact absurd hpx hany

/-- The background writer's reported success depends only on the cache
being present and the storage being writable — never on the boolean the
caller already received. -/
theorem savePatientDataSync_snd (cache? disk : Option (List Row)) (w : Bool) :
    (savePatientDataSync cache? disk w).2 = (cache?.isSome && w) := by
  cases cache? with
  | none => simp [savePatientDataSync]
  | some cache => cases w <;> simp [savePatientDataSync]

/-! ## Claim C1 -/

/-- C1: for every patient frame, date, time, tri-state classification and
comment, if `set_alarm_annotation` returns true then an immediately
following `get_alarm_annotation` on the same in-memory cache — no reload
involved — returns exactly the classification and comment just written:
both operations run the identical three-stage timestamp search, the
search is insensitive to the written columns, so the read lands on the
row the write updated. -/
theorem C1_classification_write_read (df? : Option (List Row))
    (d t : String) (c : Option Bool) (s : String)
    (h : (setAlarmAnn df? d t c s).2 = true) :
    getAlarmAnn (setAlarmAnn df? d t c s).1 d t = ⟨c, s⟩ := by
  cases df? with
  | none => simp [setAlarmAnn] at h
  | some df => exact set_get_ann df d t c s h

/-- Witness for C1 at a concrete store: one alarm row, write
`(True, "note")`, read it back. -/
theorem C1_witness :
    (setAlarmAnn (some [{ timeStamp := "2025-05-01 02:15:30" }])
        "2025-05-01" "02:15:30" (some true) "note").2 = true ∧
      getAlarmAnn (setAlarmAnn (some [{ timeStamp := "2025-05-01 02:15:30" }])
        "2025-05-01" "02:15:30" (some true) "note").1
        "2025-05-01" "02:15:30" = ⟨some true, "note"⟩ :=
  ⟨by decide,
   C1_classification_write_read (some [{ timeStamp := "2025-05-01 02:15:30" }])
     "2025-05-01" "02:15:30" (some true) "note" (by decide)⟩

/-! ## Claim C2 -/

/-- C2 counterexample: the claim says `set_classification` returns false
when durable storage is unwritable.  It does not: with a matching row
and unwritable storage (`writable := false`) the call still returns
true — the boolean is produced before the background write runs — and
the durable write then fails, so the write is dropped from disk while
the caller saw success. -/
theorem C2_counterexample :
    (setAlarmAnn (some [{ timeStamp := "2025-05-01 02:15:30" }])
        "2025-05-01" "02:15:30" (some true) "note").2 = true ∧
      (savePatientDataSync
        (setAlarmAnn (some [{ timeStamp := "2025-05-01 02:15:30" }])
          "2025-05-01" "02:15:30" (some true) "note").1
        (some [{ timeStamp := "2025-05-01 02:15:30" }]) false).2 = false := by
  constructor
  · decide
  · decide

/-- C2 amended: `set_classification` returns false exactly when the
patient's data cannot be loaded or no row matches the timestamp search;
storage writability never influences the returned boolean — the
enqueued background write succeeds iff the cache exists and the storage
is writable, and when it fails nothing reaches the caller: the sync
save catches its own exception, prints it and returns false, so the
save worker still takes its success path. -/
theorem C2_return_value_semantics (df? : Option (List Row)) (d t : String)
    (c : Option Bool) (s : String) :
    ((setAlarmAnn df? d t c s).2 = true ↔
      ∃ df, df? = some df ∧ df.any (annPred df d t) = true) ∧
    ∀ (disk : Option (List Row)) (w : Bool),
      (savePatientDataSync (setAlarmAnn df? d t c s).1 disk w).2 =
        ((setAlarmAnn df? d t c s).1.isSome && w) :=
  ⟨setAlarmAnn_true_iff df? d t c s,
   fun disk w => savePatientDataSync_snd (setAlarmAnn df? d t c s).1 disk w⟩

/-! ## Claim C9 -/

/-- C9 counterexample: a patient whose only row has an admission start
but no admission end — an ongoing admission.  The claim says
`get_admission_periods` returns a period representing it, with an id
encoding the open-endedness.  The code filters on `AdmissionIn` AND
`AdmissionOut` both non-null, so the ongoing admission contributes
nothing and only the synthetic default period comes back. -/
theorem C9_counterexample :
    getAdmissionPeriods
        (some [{ timeStamp := "2025-05-01 10:00:00",
                 admissionIn := some "2025-05-01 09:00:00",
                 admissionOut := none }]) =
      [{ id := "default", start := "N/A", stop := "N/A" }] := by
  decide

theorem getAdmissionPeriods_eq (df : List Row) :
    getAdmissionPeriods (some df) =
      if (derivedPeriods df).isEmpty then [⟨"default", "N/A", "N/A"⟩]
      else derivedPeriods df := rfl

theorem underscore_ne_default (s e : String) : (s ++ "_" ++ e) ≠ "default" := by
  intro h
  have h1 : strContains (s ++ "_" ++ e) "_" = true := by
    have key : ∀ l : List Char, containsSeg ['_'] (l ++ '_' :: e.data) = true := by
      intro l
      induction l with
      | nil => simp [containsSeg, List.isPrefixOf]
      | cons c t ih => simp [containsSeg, ih]
    have hd : (s ++ "_" ++ e).data = s.data ++ '_' :: e.data := by
      simp [String.data_append]
    rw [strContains, hd]
    exact key s.data
  rw [h] at h1
  exact absurd h1 (by decide)

theorem mem_derivedPeriods (df : List Row) (p : Period)
    (hp : p ∈ derivedPeriods df) :
    ∃ r ∈ df, ∃ vi vo, r.admissionIn = some vi ∧ r.admissionOut = some vo ∧
      p = ⟨dateOf vi ++ "_" ++ dateOf vo, dateOf vi, dateOf vo⟩ := by
  obtain ⟨pair, hpair, hpp⟩ := List.mem_map.1 hp
  have hpair2 : pair ∈ (df.filter
      (fun r => r.admissionIn.isSome && r.admissionOut.isSome)).map
      (fun r => (r.admissionIn.getD "", r.admissionOut.getD "")) :=
    (dedupBy_sublist id _).mem hpair
  obtain ⟨r, hr, hrp⟩ := List.mem_map.1 hpair2
  have hrf := List.mem_filter.1 hr
  have hq : r.admissionIn.isSome = true ∧ r.admissionOut.isSome = true := by
    have := hrf.2
    simpa using this
  obtain ⟨vi, hvi⟩ := Option.isSome_iff_exists.1 hq.1
  obtain ⟨vo, hvo⟩ := Option.isSome_iff_exists.1 hq.2
  refine ⟨r, hrf.1, vi, vo, hvi, hvo, ?_⟩
  rw [← hpp, ← hrp]
  simp [hvi, hvo]

theorem derivedPeriods_empty_iff (df : List Row) :
    (derivedPeriods df).isEmpty = true ↔
      ∀ r ∈ df, ¬(r.admissionIn.isSome = true ∧ r.admissionOut.isSome = true) := by
  constructor
  · intro he r hr hq
    have hmem : (r.admissionIn.getD "", r.admissionOut.getD "") ∈
        (df.filter (fun r => r.admissionIn.isSome && r.admissionOut.isSome)).map
          (fun r => (r.admissionIn.getD "", r.admissionOut.getD "")) :=
      List.mem_map.2 ⟨r, List.mem_filter.2 ⟨hr, by simp [hq.1, hq.2]⟩, rfl⟩
    rcases hsh : (df.filter
        (fun r => r.admissionIn.isSome && r.admissionOut.isSome)).map
        (fun r => (r.admissionIn.getD "", r.admissionOut.getD ""))
      with _ | ⟨a, t⟩
    · rw [hsh] at hmem
      simp at hmem
    · rw [derivedPeriods, hsh] at he
      have : dedupBy id (a :: t) = a :: dedupByAux id [id a] t := by
        simp [dedupBy, dedupByAux]
      rw [this] at he
      simp at he
  · intro hall
    have hfe : df.filter (fun r => r.admissionIn.isSome && r.admissionOut.isSome)
        = [] := by
      rw [List.filter_eq_nil_iff]
      intro r hr hq
      exact hall r hr (by simpa using hq)
    rw [derivedPeriods, hfe]
    simp [dedupBy, dedupByAux]

/-- C9 amended: `get_admission_periods` derives periods only from rows
carrying both an admission start and an admission end — a start-only
(ongoing) admission contributes no period — and when no period is
derivable the single synthetic default period is returned, so the result
for loaded data is never empty. -/
theorem C9_admission_periods (df : List Row) :
    getAdmissionPeriods (some df) ≠ [] ∧
    (getAdmissionPeriods (some df) = [⟨"default", "N/A", "N/A"⟩] ↔
      ∀ r ∈ df, ¬(r.admissionIn.isSome = true ∧ r.admissionOut.isSome = true)) ∧
    ∀ p ∈ getAdmissionPeriods (some df), p.id = "default" ∨
      ∃ r ∈ df, ∃ vi vo, r.admissionIn = some vi ∧ r.admissionOut = some vo ∧
        p = ⟨dateOf vi ++ "_" ++ dateOf vo, dateOf vi, dateOf vo⟩ := by
  rw [getAdmissionPeriods_eq]
  by_cases he : (derivedPeriods df).isEmpty
  · rw [if_pos he]
    refine ⟨by simp, ?_, ?_⟩
    · simp only [true_iff, (derivedPeriods_empty_iff df).1 he]
      intro r hr
      exact (derivedPeriods_empty_iff df).1 he r hr
    · intro p hp
      left
      rcases List.mem_singleton.1 hp with rfl
      rfl
  · rw [if_neg he]
    have hne : derivedPeriods df ≠ [] := by
      intro hc
      rw [hc] at he
      simp at he
    refine ⟨hne, ?_, ?_⟩
    · constructor
      · intro hdef
        rcases hsh : derivedPeriods df with _ | ⟨p, t⟩
        · exact absurd hsh hne
        · rw [hsh] at hdef
          have hp : p ∈ derivedPeriods df := by rw [hsh]; exact List.mem_cons_self p t
          obtain ⟨r, _, vi, vo, _, _, hpe⟩ := mem_derivedPeriods df p hp
          have : p.id = "default" := by
            have := List.head_eq_of_cons_eq hdef
            rw [this]
          rw [hpe] at this
          exact absurd this (underscore_ne_default _ _)
      · intro hall
        exact absurd ((derivedPeriods_empty_iff df).2 hall) he
    · intro p hp
      right
      exact mem_derivedPeriods df p hp

/-! ## Claim C4 -/

theorem compareRecords_iff (n : NRec) (tr : RefRec) :
    compareRecords n tr = true ↔
      normalizeString (n.diagProtocol.getD "") = normalizeString tr.diagProtocol ∧
      normalizeString (n.intervention.getD "") = normalizeString tr.intervention ∧
      normalizeString (n.activity.getD "") = normalizeString tr.activity ∧
      normalizeString (n.attrCode.getD "") = normalizeString tr.attrCode ∧
      normalizeString (n.attrValue.getD "") = normalizeString tr.attrValue := by
  rw [compareRecords]
  simp [Bool.and_eq_true, and_assoc]

theorem validateAlarm_true_iff (refs : List RefRec) (nrs : List NRec) :
    (validateAlarm refs nrs).1 = true ↔
      ∃ n ∈ nrs, ∃ tr ∈ refs, compareRecords n tr = true := by
  rw [validateAlarm]
  rcases h : nrs.find? (fun n => refs.any (fun t => compareRecords n t)) with _ | n
  · constructor
    · intro hc
      simp at hc
    · rintro ⟨n, hn, tr, htr, hc⟩
      have hs : (nrs.find? (fun n => refs.any (fun t => compareRecords n t))).isSome :=
        List.find?_isSome.2 ⟨n, hn, List.any_eq_true.2 ⟨tr, htr, hc⟩⟩
      rw [h] at hs
      simp at hs
  · constructor
    · intro _
      have hn := List.mem_of_find?_eq_some h
      have hp := List.find?_some h
      obtain ⟨tr, htr, hc⟩ := List.any_eq_true.1 hp
      exact ⟨n, hn, tr, htr, hc⟩
    · intro _
      rfl

theorem setAlarmAnn_fst_some (df : List Row) (d t : String) (c : Option Bool)
    (s : String) : (setAlarmAnn (some df) d t c s).1.isSome = true := by
  rw [setAlarmAnn]
  by_cases h : df.any (annPred df d t) <;> simp [h]

/-- Unfolding `validate_and_save_alarm` once the timestamp parses. -/
theorem validateAndSaveAlarm_eq (refs : List RefRec) (df : List Row)
    (ts : String) (nrs : List NRec) (v : DT) (hv : parseDT ts = some v) :
    validateAndSaveAlarm refs df ts nrs =
      ((setAlarmAnn (some df) (renderDate v) (renderTime v)
          (some (validateAlarm refs nrs).1) "").1.getD df,
       if (setAlarmAnn (some df) (renderDate v) (renderTime v)
          (some (validateAlarm refs nrs).1) "").2
       then (validateAlarm refs nrs).1 else false) := by
  rw [validateAndSaveAlarm, hv]
  dsimp only
  rcases h : setAlarmAnn (some df) (renderDate v) (renderTime v)
      (some (validateAlarm refs nrs).1) "" with ⟨df?, ok⟩
  cases df? with
  | none =>
    have := setAlarmAnn_fst_some df (renderDate v) (renderTime v)
      (some (validateAlarm refs nrs).1) ""
    rw [h] at this
    simp at this
  | some df2 => cases ok <;> simp

/-- C4: an alarm the engine processes is judged True exactly when some
nursing record in the window agrees with some row of the reference table
on all five fields after normalization (trim, lowercase, strip internal
whitespace, drop parentheses); no record or no agreement judges False;
and the stored annotation of a successfully saved verdict carries an
empty comment. -/
theorem C4_auto_classification_rule (refs : List RefRec) (nrs : List NRec) :
    ((validateAlarm refs nrs).1 = true ↔
      ∃ n ∈ nrs, ∃ tr ∈ refs,
        normalizeString (n.diagProtocol.getD "") = normalizeString tr.diagProtocol ∧
        normalizeString (n.intervention.getD "") = normalizeString tr.intervention ∧
        normalizeString (n.activity.getD "") = normalizeString tr.activity ∧
        normalizeString (n.attrCode.getD "") = normalizeString tr.attrCode ∧
        normalizeString (n.attrValue.getD "") = normalizeString tr.attrValue) ∧
    ∀ (df : List Row) (ts : String) (v : DT), parseDT ts = some v →
      (setAlarmAnn (some df) (renderDate v) (renderTime v)
          (some (validateAlarm refs nrs).1) "").2 = true →
      getAlarmAnn (some (validateAndSaveAlarm refs df ts nrs).1)
          (renderDate v) (renderTime v) =
        ⟨some (validateAlarm refs nrs).1, ""⟩ := by
  constructor
  · rw [validateAlarm_true_iff refs nrs]
    constructor
    · rintro ⟨n, hn, tr, htr, hc⟩
      exact ⟨n, hn, tr, htr, (compareRecords_iff n tr).1 hc⟩
    · rintro ⟨n, hn, tr, htr, hc⟩
      exact ⟨n, hn, tr, htr, (compareRecords_iff n tr).2 hc⟩
  · intro df ts v hv hset
    rw [validateAndSaveAlarm_eq refs df ts nrs v hv]
    have hg := set_get_ann df (renderDate v) (renderTime v)
      (some (validateAlarm refs nrs).1) "" hset
    rcases h : setAlarmAnn (some df) (renderDate v) (renderTime v)
        (some (validateAlarm refs nrs).1) "" with ⟨df?, ok⟩
    cases df? with
    | none =>
      have := setAlarmAnn_fst_some df (renderDate v) (renderTime v)
        (some (validateAlarm refs nrs).1) ""
      rw [h] at this
      simp at this
    | some df2 =>
      rw [h] at hg
      simpa using hg

/-- Witness for C4: one nursing record agreeing with one reference row
after normalization; the engine judges True and stores it with an empty
comment. -/
theorem C4_witness :
    parseDT "2025-05-01 02:15:30" = some ⟨2025, 5, 1, 2, 15, 30⟩ ∧
    (setAlarmAnn (some [{ timeStamp := "2025-05-01 02:15:30" }])
        "2025-05-01" "02:15:30"
        (some (validateAlarm
          [{ diagProtocol := "Dx A(code1)", intervention := "Int B(code2)",
             activity := "Act C(code3)", attrCode := "K1", attrValue := "V1" }]
          [{ diagProtocol := some " dx a (code1) ",
             intervention := some "int b(code2)",
             activity := some "ACT C (code3)", attrCode := some "k1",
             attrValue := some "v1" }]).1) "").2 = true ∧
    getAlarmAnn
        (some (validateAndSaveAlarm
          [{ diagProtocol := "Dx A(code1)", intervention := "Int B(code2)",
             activity := "Act C(code3)", attrCode := "K1", attrValue := "V1" }]
          [{ timeStamp := "2025-05-01 02:15:30" }]
          "2025-05-01 02:15:30"
          [{ diagProtocol := some " dx a (code1) ",
             intervention := some "int b(code2)",
             activity := some "ACT C (code3)", attrCode := some "k1",
             attrValue := some "v1" }]).1)
        "2025-05-01" "02:15:30" = ⟨some true, ""⟩ := by
  refine ⟨by decide, by decide, ?_⟩
  have h := (C4_auto_classification_rule
    [{ diagProtocol := "Dx A(code1)", intervention := "Int B(code2)",
       activity := "Act C(code3)", attrCode := "K1", attrValue := "V1" }]
    [{ diagProtocol := some " dx a (code1) ",
       intervention := some "int b(code2)",
       activity := some "ACT C (code3)", attrCode := some "k1",
       attrValue := some "v1" }]).2
    [{ timeStamp := "2025-05-01 02:15:30" }]
    "2025-05-01 02:15:30" ⟨2025, 5, 1, 2, 15, 30⟩ (by decide) (by decide)
  exact h

/-! ## Claim C5 -/

theorem keepLabelToken_ne_empty (s t : String) (h : keepLabelToken s = some t) :
    t ≠ "" := by
  rw [keepLabelToken] at h
  by_cases he : pyStrip s == "" ∨ pyStrip s == "None" ∨ pyStrip s == "[]"
  · exfalso
    rcases he with he | he | he <;> simp [he] at h
  · push_neg at he
    have h1 : (pyStrip s == "") = false := by
      cases hx : pyStrip s == ""
      · rfl
      · exact absurd hx he.1
    have h2 : (pyStrip s == "None") = false := by
      cases hx : pyStrip s == "None"
      · rfl
      · exact absurd hx he.2.1
    have h3 : (pyStrip s == "[]") = false := by
      cases hx : pyStrip s == "[]"
      · rfl
      · exact absurd hx he.2.2
    rw [if_neg (by simp [h1, h2, h3])] at h
    obtain rfl : pyStrip s = t := by injection h
    simpa using h1

/-- Every label the technical filter parses out is a non-empty string. -/
theorem mem_parseAlarmLabels_ne_empty (raw? : Option String) (l : String)
    (hl : l ∈ parseAlarmLabels raw?) : l ≠ "" := by
  cases raw? with
  | none => simp [parseAlarmLabels] at hl
  | some s =>
    rw [parseAlarmLabels] at hl
    by_cases h1 : strContains s " / "
    · rw [if_pos h1] at hl
      obtain ⟨x, _, hx⟩ := List.mem_filterMap.1 hl
      exact keepLabelToken_ne_empty x l hx
    · rw [if_neg h1] at hl
      by_cases h2 : strContains s "/"
      · rw [if_pos h2] at hl
        obtain ⟨x, _, hx⟩ := List.mem_filterMap.1 hl
        exact keepLabelToken_ne_empty x l hx
      · rw [if_neg h2] at hl
        rcases hk : keepLabelToken s with _ | t
        · rw [hk] at hl
          simp at hl
        · rw [hk] at hl
          rcases List.mem_singleton.1 hl with rfl
          exact keepLabelToken_ne_empty s l hk

/-- The keep decision, spelled out: an alarm is dropped exactly when it
has at least one parsed label and every parsed label normalizes into the
technical set. -/
theorem keepNonTechnical_false_iff (tech : List String)
    (df? : Option (List Row)) (d : String) (al : AlarmOut) :
    keepNonTechnical tech df? d al = false ↔
      alarmLabelsOf df? d al ≠ [] ∧
        ∀ l ∈ alarmLabelsOf df? d al,
          tech.contains (normalizeAlarmLabel l) = true := by
  rw [keepNonTechnical]
  by_cases he : (alarmLabelsOf df? d al).isEmpty
  · rw [if_pos he]
    simp only [Bool.true_eq_false, false_iff]
    intro hc
    exact hc.1 (List.isEmpty_iff.1 he)
  · rw [if_neg he]
    have hne : alarmLabelsOf df? d al ≠ [] := by
      intro hc
      exact he (List.isEmpty_iff.2 hc)
    rw [Bool.not_eq_false', Bool.and_eq_true, beq_iff_eq, decide_eq_true_eq]
    constructor
    · rintro ⟨hz, _⟩
      refine ⟨hne, fun l hl => ?_⟩
      have hcl := List.countP_eq_zero.1 hz l hl
      have htech : isTechnicalAlarm tech l = true := by
        simpa using hcl
      rw [isTechnicalAlarm,
        if_neg (by simpa using mem_parseAlarmLabels_ne_empty _ l hl)] at htech
      exact htech
    · rintro ⟨_, hall⟩
      have htechall : ∀ l ∈ alarmLabelsOf df? d al,
          isTechnicalAlarm tech l = true := by
        intro l hl
        rw [isTechnicalAlarm,
          if_neg (by simpa using mem_parseAlarmLabels_ne_empty _ l hl)]
        exact hall l hl
      refine ⟨List.countP_eq_zero.2 (fun l hl => by simp [htechall l hl]), ?_⟩
      obtain ⟨x, hx⟩ : ∃ x, x ∈ alarmLabelsOf df? d al := by
        rcases hsh : alarmLabelsOf df? d al with _ | ⟨x, xs⟩
        · exact absurd hsh hne
        · exact ⟨x, List.mem_cons_self x xs⟩
      exact List.countP_pos_iff.2 ⟨x, hx, htechall x hx⟩

/-- C5: the technical filter returns the input unchanged when the
technical set is empty; otherwise it keeps alarms in order, dropping one
exactly when it has at least one parsed label and every parsed label,
after normalization, is in the technical set — so an alarm with zero
labels or any non-technical label is always kept. -/
theorem C5_technical_filter (tech : List String) (df? : Option (List Row))
    (d : String) (alarms : List AlarmOut) :
    (tech = [] → filterTechnicalAlarms tech df? d alarms = alarms) ∧
    (tech ≠ [] → filterTechnicalAlarms tech df? d alarms =
      alarms.filter (keepNonTechnical tech df? d)) ∧
    ∀ al, keepNonTechnical tech df? d al = false ↔
      alarmLabelsOf df? d al ≠ [] ∧
        ∀ l ∈ alarmLabelsOf df? d al,
          tech.contains (normalizeAlarmLabel l) = true := by
  refine ⟨?_, ?_, fun al => keepNonTechnical_false_iff tech df? d al⟩
  · intro h
    subst h
    simp [filterTechnicalAlarms]
  · intro h
    have hne : tech.isEmpty = false := by
      cases tech with
      | nil => exact absurd rfl h
      | cons a t => rfl
    simp [filterTechnicalAlarms, hne]

/-- Witness for C5 on the spec's test vectors: a mixed
clinical+technical alarm and a no-label alarm pass, an all-technical
alarm is dropped. -/
theorem C5_witness :
    (["techfaultx", "techfaultz"] : List String) ≠ [] ∧
    filterTechnicalAlarms ["techfaultx", "techfaultz"]
        (some [{ timeStamp := "2025-05-01 10:00:00",
                 label := ["TechFaultX", "ClinicalEventY"] },
               { timeStamp := "2025-05-01 11:00:00",
                 label := ["TechFaultX", "TechFaultZ"] },
               { timeStamp := "2025-05-01 12:00:00", label := [] }])
        "2025-05-01"
        [{ time := "10:00:00", color := "Red", severity := "", label := "",
           classification := none, comment := "", rowIdx := 0 },
         { time := "11:00:00", color := "Red", severity := "", label := "",
           classification := none, comment := "", rowIdx := 1 },
         { time := "12:00:00", color := "Red", severity := "", label := "",
           classification := none, comment := "", rowIdx := 2 }] =
      [{ time := "10:00:00", color := "Red", severity := "", label := "",
         classification := none, comment := "", rowIdx := 0 },
       { time := "12:00:00", color := "Red", severity := "", label := "",
         classification := none, comment := "", rowIdx := 2 }] := by
  refine ⟨by decide, ?_⟩
  have h := (C5_technical_filter ["techfaultx", "techfaultz"]
    (some [{ timeStamp := "2025-05-01 10:00:00",
             label := ["TechFaultX", "ClinicalEventY"] },
           { timeStamp := "2025-05-01 11:00:00",
             label := ["TechFaultX", "TechFaultZ"] },
           { timeStamp := "2025-05-01 12:00:00", label := [] }])
    "2025-05-01"
    [{ time := "10:00:00", color := "Red", severity := "", label := "",
       classification := none, comment := "", rowIdx := 0 },
     { time := "11:00:00", color := "Red", severity := "", label := "",
       classification := none, comment := "", rowIdx := 1 },
     { time := "12:00:00", color := "Red", severity := "", label := "",
       classification := none, comment := "", rowIdx := 2 }]).2.1 (by decide)
  rw [h]
  decide

/-! ## Claim C6

The claim says the nursing-record filter drops an alarm iff the
nursing-record query for its timestamp is empty, with the ±30-minute
window inclusive.  On the DataFrame backend this is a code bug:
`has_nursing_records_for_alarm` still addresses the legacy dict layout,
the DataFrame truth test raises, the handler returns `False`, and every
alarm is dropped — even one whose row stores a nursing record recorded
at the alarm instant itself. -/

/-- C6: at the concrete failing input — patient frame with one alarm row
whose `NursingRecords_ba30` cell holds a record recorded at the alarm
instant — the nursing-record query is non-empty, yet
`has_nursing_records_for_alarm` reports false and the filter drops the
alarm.  The claim requires the alarm to be kept here. -/
theorem C6_filter_drops_alarm_with_records :
    getNursingRecords
        (some [{ timeStamp := "2025-05-01 02:15:30",
                 nursingRecords := some [{ recordedAtSec := 0 }] }])
        "2025-05-01 02:15:30" = [{ recordedAtSec := 0 }] ∧
    hasNursingRecsForAlarm
        (some [{ timeStamp := "2025-05-01 02:15:30",
                 nursingRecords := some [{ recordedAtSec := 0 }] }])
        "2025-05-01 02:15:30" = false ∧
    filterAlarmsWithNursing
        (some [{ timeStamp := "2025-05-01 02:15:30",
                 nursingRecords := some [{ recordedAtSec := 0 }] }])
        "2025-05-01"
        [{ time := "02:15:30", color := "Red", severity := "", label := "",
           classification := none, comment := "", rowIdx := 0 }] = [] := by
  refine ⟨by decide, by decide, by decide⟩

/-! ## Claim C7 -/

theorem intLtB_asym (x y : Int) : intLtB x y = true → intLtB y x = false := by
  simp only [intLtB, decide_eq_true_eq, decide_eq_false_iff_not]
  omega

theorem intLtB_negtrans (x y z : Int) :
    intLtB y x = false → intLtB z y = false → intLtB z x = false := by
  simp only [intLtB, decide_eq_false_iff_not]
  omega

/-- C7: `get_nursing_records_for_alarm` returns the stored
`NursingRecords_ba30` list unchanged, and a missing patient yields `[]`
rather than an error; with the stored list being the (spec-modelled)
windowed ingestion of the patient's nursing documentation, the result
contains exactly the records within the inclusive ±30-minute window,
every duplicate included with its multiplicity, ascending by recorded
time, with ties kept in original storage order. -/
theorem C7_nursing_records_window (df : List Row) (allRecs : List NRec)
    (t : Int) (row : Row) (ts : String)
    (hrow : findNursingRow df ts = some row)
    (hstored : row.nursingRecords = some (ba30 allRecs t)) :
    getNursingRecords none ts = [] ∧
    getNursingRecords (some df) ts = ba30 allRecs t ∧
    (∀ r : NRec, r ∈ ba30 allRecs t ↔
      r ∈ allRecs ∧ t - 1800 ≤ r.recordedAtSec ∧ r.recordedAtSec ≤ t + 1800) ∧
    (∀ r : NRec, (ba30 allRecs t).count r =
      (allRecs.filter (inWindow t 30)).count r) ∧
    (ba30 allRecs t).Pairwise (fun a b => a.recordedAtSec ≤ b.recordedAtSec) ∧
    ∀ k : Int, (ba30 allRecs t).filter (fun r => r.recordedAtSec == k) =
      (allRecs.filter (inWindow t 30)).filter (fun r => r.recordedAtSec == k) := by
  refine ⟨rfl, ?_, ?_, ?_, ?_, ?_⟩
  · rw [getNursingRecords, hrow]
    dsimp only
    rw [hstored]
    rfl
  · intro r
    rw [ba30, mem_isortK, List.mem_filter]
    constructor
    · rintro ⟨h1, h2⟩
      refine ⟨h1, ?_⟩
      have := h2
      rw [inWindow, Bool.and_eq_true, decide_eq_true_eq, decide_eq_true_eq] at this
      constructor
      · have h30 : t - 30 * 60 = t - 1800 := by norm_num
        rw [h30] at this
        exact this.1
      · have h30 : t + 30 * 60 = t + 1800 := by norm_num
        rw [h30] at this
        exact this.2
    · rintro ⟨h1, h2, h3⟩
      refine ⟨h1, ?_⟩
      rw [inWindow, Bool.and_eq_true, decide_eq_true_eq, decide_eq_true_eq]
      constructor
      · have h30 : t - 30 * 60 = t - 1800 := by norm_num
        rw [h30]
        exact h2
      · have h30 : t + 30 * 60 = t + 1800 := by norm_num
        rw [h30]
        exact h3
  · intro r
    exact (isortK_perm intLtB (fun r : NRec => r.recordedAtSec)
      (allRecs.filter (inWindow t 30))).count_eq r
  · have hp := pairwise_isortK intLtB (fun r => r.recordedAtSec) intLtB_asym
      intLtB_negtrans (allRecs.filter (inWindow t 30))
    rw [ba30]
    refine hp.imp ?_
    intro a b hab
    rw [intLtB, decide_eq_false_iff_not] at hab
    omega
  · intro k
    exact filter_key_isortK intLtB (fun r : NRec => r.recordedAtSec) k
      (by simp [intLtB]) (allRecs.filter (inWindow t 30))

/-- Witness for C7: records at exactly the window edges are included,
one a second beyond is excluded, two records sharing a recorded time
both appear in storage order, and retrieval returns the stored list. -/
theorem C7_witness :
    ba30 [{ attrValue := some "late", recordedAtSec := 11800 },
          { attrValue := some "first", recordedAtSec := 10000 },
          { attrValue := some "early", recordedAtSec := 8200 },
          { attrValue := some "second", recordedAtSec := 10000 },
          { attrValue := some "out", recordedAtSec := 8199 }] 10000 =
      [{ attrValue := some "early", recordedAtSec := 8200 },
       { attrValue := some "first", recordedAtSec := 10000 },
       { attrValue := some "second", recordedAtSec := 10000 },
       { attrValue := some "late", recordedAtSec := 11800 }] ∧
    getNursingRecords
        (some [{ timeStamp := "2025-05-01 02:15:30",
                 nursingRecords := some (ba30
                   [{ attrValue := some "late", recordedAtSec := 11800 },
                    { attrValue := some "first", recordedAtSec := 10000 },
                    { attrValue := some "early", recordedAtSec := 8200 },
                    { attrValue := some "second", recordedAtSec := 10000 },
                    { attrValue := some "out", recordedAtSec := 8199 }] 10000) }])
        "2025-05-01 02:15:30" =
      ba30 [{ attrValue := some "late", recordedAtSec := 11800 },
            { attrValue := some "first", recordedAtSec := 10000 },
            { attrValue := some "early", recordedAtSec := 8200 },
            { attrValue := some "second", recordedAtSec := 10000 },
            { attrValue := some "out", recordedAtSec := 8199 }] 10000 := by
  refine ⟨by decide, ?_⟩
  exact (C7_nursing_records_window
    [{ timeStamp := "2025-05-01 02:15:30",
       nursingRecords := some (ba30
         [{ attrValue := some "late", recordedAtSec := 11800 },
          { attrValue := some "first", recordedAtSec := 10000 },
          { attrValue := some "early", recordedAtSec := 8200 },
          { attrValue := some "second", recordedAtSec := 10000 },
          { attrValue := some "out", recordedAtSec := 8199 }] 10000) }]
    [{ attrValue := some "late", recordedAtSec := 11800 },
     { attrValue := some "first", recordedAtSec := 10000 },
     { attrValue := some "early", recordedAtSec := 8200 },
     { attrValue := some "second", recordedAtSec := 10000 },
     { attrValue := some "out", recordedAtSec := 8199 }] 10000
    { timeStamp := "2025-05-01 02:15:30",
      nursingRecords := some (ba30
        [{ attrValue := some "late", recordedAtSec := 11800 },
         { attrValue := some "first", recordedAtSec := 10000 },
         { attrValue := some "early", recordedAtSec := 8200 },
         { attrValue := some "second", recordedAtSec := 10000 },
         { attrValue := some "out", recordedAtSec := 8199 }] 10000) }
    "2025-05-01 02:15:30" (by decide) rfl).2.1

/-! ## Claim C8 -/

theorem b64Char_spec : ∀ v : Nat, v < 64 →
    b64Val (b64Char v) = some v ∧ (b64Char v == '=') = false := by
  decide

/-- Base64 round-trip at the byte level. -/
theorem b64_roundtrip : ∀ bytes : List Nat, (∀ b ∈ bytes, b < 256) →
    b64Decode (b64Encode bytes) = some bytes
  | [], _ => rfl
  | [b1], h => by
    have hb1 : b1 < 256 := h b1 (by simp)
    rw [b64Encode]
    have h1 := b64Char_spec (b1 * 65536 / 262144) (by omega)
    have h2 := b64Char_spec (b1 * 65536 / 4096 % 64) (by omega)
    rw [b64Decode]
    rw [if_pos (by simp), if_pos (by simp)]
    rw [h1.1, h2.1]
    simp only [Option.bind_eq_bind, Option.some_bind]
    rw [if_pos (by simp; omega)]
    simp only [Option.some.injEq, List.cons.injEq, and_true]
    omega
  | [b1, b2], h => by
    have hb1 : b1 < 256 := h b1 (by simp)
    have hb2 : b2 < 256 := h b2 (by simp)
    have h1 := b64Char_spec ((b1 * 65536 + b2 * 256) / 262144) (by omega)
    have h2 := b64Char_spec ((b1 * 65536 + b2 * 256) / 4096 % 64) (by omega)
    have h3 := b64Char_spec ((b1 * 65536 + b2 * 256) / 64 % 64) (by omega)
    rw [b64Encode, b64Decode]
    rw [if_neg (by simp [h3.2]), if_pos (by simp), if_pos (by simp)]
    rw [h1.1, h2.1, h3.1]
    simp only [Option.bind_eq_bind, Option.some_bind]
    rw [if_pos (by simp; omega)]
    simp only [Option.some.injEq, List.cons.injEq, and_true]
    constructor
    · omega
    · omega
  | b1 :: b2 :: b3 :: rest, h => by
    have hb1 : b1 < 256 := h b1 (by simp)
    have hb2 : b2 < 256 := h b2 (by simp)
    have hb3 : b3 < 256 := h b3 (by simp)
    have hrest : ∀ b ∈ rest, b < 256 := by
      intro b hb
      exact h b (by simp [hb])
    have ih := b64_roundtrip rest hrest
    have h1 := b64Char_spec ((b1 * 65536 + b2 * 256 + b3) / 262144) (by omega)
    have h2 := b64Char_spec ((b1 * 65536 + b2 * 256 + b3) / 4096 % 64) (by omega)
    have h3 := b64Char_spec ((b1 * 65536 + b2 * 256 + b3) / 64 % 64) (by omega)
    have h4 := b64Char_spec ((b1 * 65536 + b2 * 256 + b3) % 64) (by omega)
    rw [b64Encode, b64Decode]
    rw [if_neg (by simp [h3.2]), if_neg (by simp [h4.2])]
    rw [h1.1, h2.1, h3.1, h4.1]
    simp only [Option.bind_eq_bind, Option.some_bind]
    rw [ih]
    simp only [Option.bind_eq_bind, Option.some_bind, Option.some.injEq, List.cons.injEq, and_true]
    refine ⟨by omega, by omega, by omega⟩

theorem sampleBytes_bound (samples : List Nat) :
    ∀ b ∈ samples.flatMap sampleBytes, b < 256 := by
  intro b hb
  obtain ⟨v, _, hbv⟩ := List.mem_flatMap.1 hb
  rw [sampleBytes] at hbv
  simp only [List.mem_cons, List.not_mem_nil, or_false] at hbv
  rcases hbv with h | h | h | h | h | h | h | h
  all_goals (rw [h]; omega)

theorem bytesToSamples_flatMap : ∀ samples : List Nat,
    (∀ v ∈ samples, v < 2 ^ 64) →
    bytesToSamples (samples.flatMap sampleBytes) = some samples
  | [], _ => rfl
  | v :: t, h => by
    have hv : v < 2 ^ 64 := h v (by simp)
    have ih := bytesToSamples_flatMap t (fun w hw => h w (by simp [hw]))
    rw [List.flatMap_cons, sampleBytes]
    simp only [List.cons_append, List.nil_append]
    rw [bytesToSamples, ih]
    simp only [Option.bind_eq_bind, Option.some_bind, Option.some.injEq, List.cons.injEq, and_true]
    rw [sampleOfBytes]
    omega

/-- C8 (spec-modelled codec): decoding an encoded finite float64 sample
array — each sample carried as its 64-bit pattern — returns it exactly,
including the empty array; and a malformed blob decodes to the empty
sequence rather than raising, so one corrupted channel cannot abort the
others. -/
theorem C8_codec_roundtrip (x : List Nat) (hx : ∀ v ∈ x, v < 2 ^ 64) :
    decodeWaveform (encodeWaveform x) = x ∧
    decodeWaveform "%%% not base64 %%%" = [] ∧
    decodeWaveform (encodeWaveform []) = [] := by
  refine ⟨?_, by decide, ?_⟩
  · rw [encodeWaveform, decodeWaveform]
    rw [show (String.mk (b64Encode (x.flatMap sampleBytes))).data =
      b64Encode (x.flatMap sampleBytes) from rfl]
    rw [b64_roundtrip (x.flatMap sampleBytes) (sampleBytes_bound x)]
    dsimp only
    rw [bytesToSamples_flatMap x hx]
  · decide

/-- Witness for C8 at concrete samples, among them the all-ones 64-bit
pattern and zero. -/
theorem C8_witness :
    (∀ v ∈ [0, 1, 123456789, 2 ^ 64 - 1], v < 2 ^ 64) ∧
    decodeWaveform (encodeWaveform [0, 1, 123456789, 2 ^ 64 - 1]) =
      [0, 1, 123456789, 2 ^ 64 - 1] :=
  ⟨by decide,
   (C8_codec_roundtrip [0, 1, 123456789, 2 ^ 64 - 1] (by decide)).1⟩

/-! ## Claim C10 -/

theorem loadPatientData_shape (raw df : List Row)
    (h : loadPatientData (some raw) = some df) :
    df = dedupBy (fun r => r.timeStamp)
      (raw.filter (fun r => r.isView.getD false == true)) := by
  rw [loadPatientData] at h
  by_cases he : (dedupBy (fun r => r.timeStamp)
      (raw.filter (fun r => r.isView.getD false == true))).isEmpty
  · rw [if_pos he] at h
    exact absurd h (by simp)
  · rw [if_neg he] at h
    injection h with h2
    exact h2.symm

theorem isView_getD_true (r : Row) (h : (r.isView.getD false == true) = true) :
    r.isView = some true := by
  rcases hv : r.isView with _ | b
  · rw [hv] at h
    simp at h
  · rw [hv] at h
    simp at h
    rw [h]

/-- C10: the loader admits only `isView = True` rows (a false or missing
flag excludes the row) and deduplicates exact-equal timestamps
first-seen-wins; every row any read or `set_alarm_annotation` then
observes carries `isView = True`, writes keep it that way; and the
background save copies only the three annotation columns of cached rows
back into the on-disk frame, so every other column of every row — and
every column of a hidden row, given unique index labels — keeps its
on-disk value. -/
theorem C10_isView_discipline (raw df : List Row)
    (h : loadPatientData (some raw) = some df) :
    (∀ r ∈ df, r.isView = some true) ∧
    (df.map (fun r => r.timeStamp)).Nodup ∧
    df.Sublist raw ∧
    (∀ ts : String, df.find? (fun r => r.timeStamp == ts) =
      (raw.filter (fun r => r.isView.getD false == true)).find?
        (fun r => r.timeStamp == ts)) ∧
    (∀ (d t : String) (c : Option Bool) (s : String) (df2 : List Row),
      (setAlarmAnn (some df) d t c s).1 = some df2 →
      df2.map Row.isView = df.map Row.isView) ∧
    (∀ (original cache : List Row) (i : Nat) (orig : Row),
      original[i]? = some orig →
      (cache.find? (fun c2 => c2.idx == orig.idx) = none →
        (mergeSave original cache)[i]? = some orig) ∧
      (∀ c2, cache.find? (fun c3 => c3.idx == orig.idx) = some c2 →
        (mergeSave original cache)[i]? =
          some { orig with classification := c2.classification,
                           comment := c2.comment,
                           isSelected := c2.isSelected })) ∧
    ((raw.map Row.idx).Nodup →
      ∀ orig ∈ raw, ¬(orig.isView.getD false == true) = true →
      ∀ i : Nat, raw[i]? = some orig → (mergeSave raw df)[i]? = some orig) := by
  have hdf := loadPatientData_shape raw df h
  have hmemflt : ∀ r ∈ df,
      r ∈ raw.filter (fun r => r.isView.getD false == true) := by
    intro r hr
    rw [hdf] at hr
    exact (dedupBy_sublist _ _).mem hr
  refine ⟨?_, ?_, ?_, ?_, ?_, ?_, ?_⟩
  · intro r hr
    exact isView_getD_true r ((List.mem_filter.1 (hmemflt r hr)).2)
  · rw [hdf]
    exact dedupBy_keys_nodup (fun r : Row => r.timeStamp) _
  · rw [hdf]
    exact (dedupBy_sublist _ _).trans (List.filter_sublist raw)
  · intro ts
    rw [hdf]
    exact dedupByAux_find? (fun r : Row => r.timeStamp) ts [] _ (by simp)
  · intro d t c s df2 hset
    rw [setAlarmAnn] at hset
    by_cases hany : df.any (annPred df d t)
    · rw [if_pos hany] at hset
      dsimp only at hset
      injection hset with hset
      rw [← hset]
      exact updateAt_map (applyAnn c s) Row.isView (fun r => rfl) df _
    · rw [if_neg hany] at hset
      dsimp only at hset
      injection hset with hset
      rw [← hset]
  · intro original cache i orig hoi
    constructor
    · intro hnone
      rw [mergeSave, List.getElem?_map, hoi]
      simp only [Option.map_some']
      rw [hnone]
    · intro c2 hc2
      rw [mergeSave, List.getElem?_map, hoi]
      simp only [Option.map_some']
      rw [hc2]
  · intro hnodup orig horig hhid i hoi
    have hnone : df.find? (fun c2 => c2.idx == orig.idx) = none := by
      rcases hf : df.find? (fun c2 => c2.idx == orig.idx) with _ | c
      · exact hf
      · exfalso
        have hcmem : c ∈ df := List.mem_of_find?_eq_some hf
        have hcidx : c.idx = orig.idx := by
          have := List.find?_some hf
          simpa using this
        have hcraw : c ∈ raw :=
          ((dedupBy_sublist _ _).trans (List.filter_sublist raw)).mem
            (hdf ▸ hcmem)
        have hceq : c = orig :=
          List.inj_on_of_nodup_map hnodup hcraw horig hcidx
        have hcview : (c.isView.getD false == true) = true :=
          (List.mem_filter.1 (hmemflt c hcmem)).2
        rw [hceq] at hcview
        exact hhid hcview
    rw [mergeSave, List.getElem?_map, hoi]
    simp only [Option.map_some']
    rw [hnone]

/-- Witness for C10: a raw frame with a visible row, an `isView = False`
row, a NaN-`isView` row and an exact-duplicate timestamp; the loader
keeps only the first visible row per timestamp and the merged save
restores the hidden rows untouched. -/
theorem C10_witness :
    loadPatientData (some
        [{ idx := 0, timeStamp := "2025-05-01 02:15:30" },
         { idx := 1, timeStamp := "2025-05-01 03:00:00", isView := some false },
         { idx := 2, timeStamp := "2025-05-01 04:00:00", isView := none },
         { idx := 3, timeStamp := "2025-05-01 02:15:30" }]) =
      some [{ idx := 0, timeStamp := "2025-05-01 02:15:30" }] ∧
    (∀ r ∈ [({ idx := 0, timeStamp := "2025-05-01 02:15:30" } : Row)],
      r.isView = some true) :=
  ⟨by decide,
   (C10_isView_discipline
     [{ idx := 0, timeStamp := "2025-05-01 02:15:30" },
      { idx := 1, timeStamp := "2025-05-01 03:00:00", isView := some false },
      { idx := 2, timeStamp := "2025-05-01 04:00:00", isView := none },
      { idx := 3, timeStamp := "2025-05-01 02:15:30" }]
     [{ idx := 0, timeStamp := "2025-05-01 02:15:30" }] (by decide)).1⟩

/-! ## Claim C3

The idempotence proof works under a well-formedness hypothesis on the
cached frame — every timestamp canonical (`YYYY-MM-DD HH:MM:SS`) and
pairwise distinct, the shape the loader's dedup produces for
second-aligned data.  The counterexample below shows why the hypothesis
is necessary: with non-canonical timestamps the fuzzy search lets the
annotation lookup and the write resolve to different rows. -/

/-! ### Canonical timestamp structure -/

theorem digitChar_isDigit (n : Nat) (h : n < 10) : (digitChar n).isDigit = true := by
  interval_cases n <;> decide

theorem natDigitsAux_isDigit :
    ∀ (fuel n : Nat) (acc : List Char), (∀ c ∈ acc, c.isDigit = true) →
      ∀ c ∈ natDigitsAux fuel n acc, c.isDigit = true
  | 0, _, acc, hacc => hacc
  | fuel + 1, n, acc, hacc => by
    rw [natDigitsAux]
    by_cases hn : n < 10
    · rw [if_pos hn]
      intro c hc
      rcases List.mem_cons.1 hc with rfl | hc
      · exact digitChar_isDigit n hn
      · exact hacc c hc
    · rw [if_neg hn]
      refine natDigitsAux_isDigit fuel (n / 10) _ ?_
      intro c hc
      rcases List.mem_cons.1 hc with rfl | hc
      · exact digitChar_isDigit (n % 10) (Nat.mod_lt n (by omega))
      · exact hacc c hc

theorem natDigits_isDigit (n : Nat) : ∀ c ∈ natDigits n, c.isDigit = true :=
  natDigitsAux_isDigit (n + 1) n [] (by intro c hc; exact absurd hc (List.not_mem_nil c))

theorem isDigit_ne_space (c : Char) (h : c.isDigit = true) : (c == ' ') = false := by
  cases hc : c == ' '
  · rfl
  · have : c = ' ' := eq_of_beq hc
    rw [this] at h
    exact absurd h (by decide)

theorem pad2_no_space (n : Nat) : ∀ c ∈ pad2 n, (c == ' ') = false := by
  intro c hc
  rw [pad2] at hc
  by_cases hn : n < 10
  · rw [if_pos hn] at hc
    rcases List.mem_cons.1 hc with rfl | hc
    · decide
    · exact isDigit_ne_space c (natDigits_isDigit n c hc)
  · rw [if_neg hn] at hc
    exact isDigit_ne_space c (natDigits_isDigit n c hc)

theorem pad4_no_space (n : Nat) : ∀ c ∈ pad4 n, (c == ' ') = false := by
  intro c hc
  rw [pad4] at hc
  by_cases h1 : n < 10
  · rw [if_pos h1] at hc
    rcases List.mem_cons.1 hc with rfl | hc
    · decide
    rcases List.mem_cons.1 hc with rfl | hc
    · decide
    rcases List.mem_cons.1 hc with rfl | hc
    · decide
    · exact isDigit_ne_space c (natDigits_isDigit n c hc)
  · rw [if_neg h1]  at hc
    by_cases h2 : n < 100
    · rw [if_pos h2] at hc
      rcases List.mem_cons.1 hc with rfl | hc
      · decide
      rcases List.mem_cons.1 hc with rfl | hc
      · decide
      · exact isDigit_ne_space c (natDigits_isDigit n c hc)
    · rw [if_neg h2] at hc
      by_cases h3 : n < 1000
      · rw [if_pos h3] at hc
        rcases List.mem_cons.1 hc with rfl | hc
        · decide
        · exact isDigit_ne_space c (natDigits_isDigit n c hc)
      · rw [if_neg h3] at hc
        exact isDigit_ne_space c (natDigits_isDigit n c hc)

theorem string_data_mk (l : List Char) : (String.mk l).data = l := rfl

theorem renderDate_no_space (v : DT) :
    ∀ c ∈ (renderDate v).data, (c == ' ') = false := by
  intro c hc
  rw [renderDate] at hc
  simp only [string_data_mk, List.mem_append, List.mem_cons] at hc
  rcases hc with (hc | rfl | hc) | (rfl | hc)
  · exact pad4_no_space v.y c hc
  · decide
  · exact pad2_no_space v.mo c hc
  · decide
  · exact pad2_no_space v.d c hc

theorem renderTime_no_space (v : DT) :
    ∀ c ∈ (renderTime v).data, (c == ' ') = false := by
  intro c hc
  rw [renderTime] at hc
  simp only [string_data_mk, List.mem_append, List.mem_cons] at hc
  rcases hc with (hc | rfl | hc) | (rfl | hc)
  · exact pad2_no_space v.h c hc
  · decide
  · exact pad2_no_space v.mi c hc
  · decide
  · exact pad2_no_space v.s c hc

theorem splitOnChar_no_sep (c : Char) :
    ∀ l : List Char, (∀ x ∈ l, (x == c) = false) → splitOnChar c l = [l]
  | [], _ => rfl
  | a :: t, h => by
    rw [splitOnChar]
    have ha : (a == c) = false := h a (List.mem_cons_self a t)
    rw [splitOnChar_no_sep c t (fun x hx => h x (List.mem_cons_of_mem a hx))]
    simp [ha]

theorem splitOnChar_clean (c : Char) :
    ∀ l1 l2 : List Char, (∀ x ∈ l1, (x == c) = false) →
      (∀ x ∈ l2, (x == c) = false) →
      splitOnChar c (l1 ++ c :: l2) = [l1, l2]
  | [], l2, _, h2 => by
    rw [List.nil_append, splitOnChar]
    rw [splitOnChar_no_sep c l2 h2]
    simp
  | a :: t, l2, h1, h2 => by
    rw [List.cons_append, splitOnChar]
    have ha : (a == c) = false := h1 a (List.mem_cons_self a t)
    rw [splitOnChar_clean c t l2 (fun x hx => h1 x (List.mem_cons_of_mem a hx)) h2]
    simp [ha]

/-- A canonical timestamp splits exactly into its rendered date and time
parts. -/
theorem canonical_split (s : String) (h : canonicalTs s = true) :
    ∃ v : DT, parseDT s = some v ∧
      s = renderDate v ++ " " ++ renderTime v ∧
      dateOf s = renderDate v ∧ timeOf s = renderTime v := by
  rw [canonicalTs] at h
  rcases hp : parseDT s with _ | v
  · rw [hp] at h
    simp at h
  · rw [hp] at h
    have hs : renderDT v = s := eq_of_beq h
    have hdata : s.data = (renderDate v).data ++ ' ' :: (renderTime v).data := by
      rw [← hs, renderDT, String.data_append, String.data_append,
        show (" " : String).data = [' '] from rfl]
      simp
    have hsplit : splitOnChar ' ' s.data =
        [(renderDate v).data, (renderTime v).data] := by
      rw [hdata]
      exact splitOnChar_clean ' ' _ _ (renderDate_no_space v) (renderTime_no_space v)
    refine ⟨v, rfl, ?_, ?_, ?_⟩
    · rw [← hs, renderDT]
    · rw [dateOf, splitHead, hsplit]
      simp only [List.headD_cons]
    · rw [timeOf, hsplit]

/-! ### Engine step structure -/

theorem applyAnn_rowKey (c : Option Bool) (s : String) (r : Row) :
    rowKey (applyAnn c s r) = rowKey r := rfl

theorem find?_eq_get_findIdx {α : Type} (p : α → Bool) :
    ∀ l : List α, l.any p = true → l.find? p = l[l.findIdx p]?
  | [], h => by simp at h
  | a :: t, h => by
    by_cases ha : p a
    · simp [List.find?_cons, ha, List.findIdx_cons]
    · have h2 : t.any p = true := by simpa [List.any_cons, ha] using h
      simp [List.find?_cons, ha, List.findIdx_cons,
        find?_eq_get_findIdx p t h2]

/-- A point update elsewhere leaves the first match; an update at the
match replaces it by its image. -/
theorem find?_updateAt_cases {α : Type} (p : α → Bool) (f : α → α)
    (hp : ∀ a, p (f a) = p a) :
    ∀ (l : List α) (i : Nat),
      (l.find? p = none → (updateAt l i f).find? p = none) ∧
      (∀ r, l.find? p = some r →
        (updateAt l i f).find? p = some r ∨
          (updateAt l i f).find? p = some (f r))
  | [], i => ⟨fun _ => rfl, fun r hr => by simp at hr⟩
  | a :: t, 0 => by
    constructor
    · intro h
      rw [List.find?_cons] at h
      rcases hpa : p a with _ | _
      · rw [hpa] at h
        show ((f a :: t).find? p) = none
        rw [List.find?_cons]
        rw [hp a, hpa]
        exact h
      · rw [hpa] at h
        exact absurd h (by simp)
    · intro r hr
      rw [List.find?_cons] at hr
      rcases hpa : p a with _ | _
      · rw [hpa] at hr
        left
        show ((f a :: t).find? p) = some r
        rw [List.find?_cons, hp a, hpa]
        exact hr
      · rw [hpa] at hr
        right
        injection hr with hr
        show ((f a :: t).find? p) = some (f r)
        rw [List.find?_cons, hp a, hpa, hr]
  | a :: t, i + 1 => by
    constructor
    · intro h
      rw [List.find?_cons] at h
      rcases hpa : p a with _ | _
      · rw [hpa] at h
        show ((a :: updateAt t i f).find? p) = none
        rw [List.find?_cons, hpa]
        exact (find?_updateAt_cases p f hp t i).1 h
      · rw [hpa] at h
        exact absurd h (by simp)
    · intro r hr
      rw [List.find?_cons] at hr
      rcases hpa : p a with _ | _
      · rw [hpa] at hr
        have := (find?_updateAt_cases p f hp t i).2 r hr
        rcases this with h2 | h2
        · left
          show ((a :: updateAt t i f).find? p) = some r
          rw [List.find?_cons, hpa]
          exact h2
        · right
          show ((a :: updateAt t i f).find? p) = some (f r)
          rw [List.find?_cons, hpa]
          exact h2
      · rw [hpa] at hr
        injection hr with hr
        left
        show ((a :: updateAt t i f).find? p) = some r
        rw [List.find?_cons, hpa, hr]

theorem annS_mono_update (ts : String) (df : List Row) (i : Nat) (b : Bool) :
    annS df ts = true →
      annS (updateAt df i (applyAnn (some b) "")) ts = true := by
  intro h
  rw [annS] at h
  rw [annS]
  rcases hf : df.find? (fun r => r.timeStamp == ts) with _ | r
  · rw [hf] at h
    simp at h
  · rw [hf] at h
    rcases (find?_updateAt_cases (fun r => r.timeStamp == ts)
        (applyAnn (some b) "") (fun a => rfl) df i).2 r hf with h2 | h2
    · rw [h2]
      exact h
    · rw [h2]
      rfl

theorem stepAlarm_shape (refs : List RefRec) (df : List Row) (dd t : String) :
    stepAlarm refs df dd t = df ∨
      ∃ (b : Bool) (i : Nat),
        stepAlarm refs df dd t = updateAt df i (applyAnn (some b) "") := by
  rw [stepAlarm]
  by_cases hann : (getAlarmAnn (some df) dd t).classification.isSome
  · rw [if_pos hann]
    left
    rfl
  · rw [if_neg hann]
    dsimp only
    rcases hv : parseDT (dd ++ " " ++ t) with _ | v
    · left
      rw [validateAndSaveAlarm, hv]
    · rw [validateAndSaveAlarm_eq refs df _ _ v hv]
      dsimp only
      rw [setAlarmAnn]
      by_cases hany : df.any (annPred df (renderDate v) (renderTime v))
      · rw [if_pos hany]
        right
        exact ⟨_, _, rfl⟩
      · rw [if_neg hany]
        left
        rfl

theorem stepAlarm_rowKey (refs : List RefRec) (df : List Row) (dd t : String) :
    (stepAlarm refs df dd t).map rowKey = df.map rowKey := by
  rcases stepAlarm_shape refs df dd t with h | ⟨b, i, h⟩
  · rw [h]
  · rw [h]
    exact updateAt_map (applyAnn (some b) "") rowKey (fun r => rfl) df i

theorem stepAlarm_annS_mono (refs : List RefRec) (df : List Row)
    (dd t ts : String) :
    annS df ts = true → annS (stepAlarm refs df dd t) ts = true := by
  intro h
  rcases stepAlarm_shape refs df dd t with h2 | ⟨b, i, h2⟩
  · rw [h2]
    exact h
  · rw [h2]
    exact annS_mono_update ts df i b h

theorem map_ts_of_rowKey {df₁ df₂ : List Row}
    (h : df₁.map rowKey = df₂.map rowKey) :
    df₁.map (fun r => r.timeStamp) = df₂.map (fun r => r.timeStamp) := by
  have h2 := congrArg (List.map Prod.fst) h
  rw [List.map_map, List.map_map] at h2
  exact h2

theorem tsHas_of_rowKey {df₁ df₂ : List Row}
    (h : df₁.map rowKey = df₂.map rowKey) (ts : String) (hts : tsHas df₁ ts) :
    tsHas df₂ ts := by
  rw [tsHas] at hts ⊢
  rw [← map_ts_of_rowKey h]
  exact hts

/-! ### Congruence of the engine's iteration lists under the engine's
writes (the written columns are not read by them) -/

theorem rowKey_fields {r₁ r₂ : Row} (h : rowKey r₁ = rowKey r₂) :
    r₁.timeStamp = r₂.timeStamp ∧ r₁.admissionIn = r₂.admissionIn ∧
      r₁.admissionOut = r₂.admissionOut := by
  rw [rowKey, rowKey] at h
  simp only [Prod.mk.injEq] at h
  exact ⟨h.1, h.2.1, h.2.2.1⟩

theorem periods_congr {df₁ df₂ : List Row}
    (h : df₁.map rowKey = df₂.map rowKey) :
    getAdmissionPeriods (some df₁) = getAdmissionPeriods (some df₂) := by
  have hpairs : ((df₁.filter
      (fun r => r.admissionIn.isSome && r.admissionOut.isSome)).map
      (fun r => (r.admissionIn.getD "", r.admissionOut.getD ""))) =
      ((df₂.filter
      (fun r => r.admissionIn.isSome && r.admissionOut.isSome)).map
      (fun r => (r.admissionIn.getD "", r.admissionOut.getD ""))) := by
    refine filter_map_congr rowKey _ _ ?_ ?_ df₁ df₂ h
    · intro a b hab
      obtain ⟨_, h2, h3⟩ := rowKey_fields hab
      rw [h2, h3]
    · intro a b hab
      obtain ⟨_, h2, h3⟩ := rowKey_fields hab
      rw [h2, h3]
  rw [getAdmissionPeriods, getAdmissionPeriods, hpairs]

theorem dates_congr {df₁ df₂ : List Row}
    (h : df₁.map rowKey = df₂.map rowKey) (aid : String) :
    getAvailableDates (some df₁) aid = getAvailableDates (some df₂) aid := by
  have hl : ((df₁.filter (admRowOk aid)).map (fun r => dateOf r.timeStamp)) =
      ((df₂.filter (admRowOk aid)).map (fun r => dateOf r.timeStamp)) := by
    refine filter_map_congr rowKey _ _ ?_ ?_ df₁ df₂ h
    · intro a b hab
      obtain ⟨h1, h2, h3⟩ := rowKey_fields hab
      rw [admRowOk, admRowOk, h2, h3]
    · intro a b hab
      obtain ⟨h1, _, _⟩ := rowKey_fields hab
      rw [h1]
  rw [getAvailableDates, getAvailableDates, hl]

theorem alarmTimes_congr {df₁ df₂ : List Row}
    (h : df₁.map rowKey = df₂.map rowKey) (aid dd : String) :
    alarmTimes df₁ aid dd = alarmTimes df₂ aid dd := by
  have hl : ∀ df : List Row,
      ((df.filter (fun r => admRowOk aid r && (dateOf r.timeStamp == dd))).map
        mkAlarmOut).map (fun a => a.time) =
      (df.filter (fun r => admRowOk aid r && (dateOf r.timeStamp == dd))).map
        (fun r => timeOf r.timeStamp) := by
    intro df
    rw [List.map_map]
    rfl
  have hmaps : ((df₁.filter
      (fun r => admRowOk aid r && (dateOf r.timeStamp == dd))).map
      (fun r => timeOf r.timeStamp)) = ((df₂.filter
      (fun r => admRowOk aid r && (dateOf r.timeStamp == dd))).map
      (fun r => timeOf r.timeStamp)) := by
    refine filter_map_congr rowKey _ _ ?_ ?_ df₁ df₂ h
    · intro a b hab
      obtain ⟨h1, h2, h3⟩ := rowKey_fields hab
      rw [admRowOk, admRowOk, h1, h2, h3]
    · intro a b hab
      obtain ⟨h1, _, _⟩ := rowKey_fields hab
      rw [h1]
  rw [alarmTimes, alarmTimes, getAlarmsForDate, getAlarmsForDate]
  exact isortK_map_key strLtB (fun a : AlarmOut => a.time) _ _
    ((hl df₁).trans (hmaps.trans (hl df₂).symm))

theorem goodDf_of_rowKey {df₁ df₂ : List Row}
    (h : df₁.map rowKey = df₂.map rowKey) (hg : goodDf df₁) : goodDf df₂ := by
  have hts := map_ts_of_rowKey h
  constructor
  · intro r hr
    have : r.timeStamp ∈ df₂.map (fun r => r.timeStamp) :=
      List.mem_map.2 ⟨r, hr, rfl⟩
    rw [← hts] at this
    obtain ⟨r₀, hr₀, he⟩ := List.mem_map.1 this
    rw [← he]
    exact hg.1 r₀ hr₀
  · rw [← hts]
    exact hg.2

/-! ### Canonical alarms: every time the engine iterates comes from a
row whose exact timestamp it reconstructs -/

theorem alarmTimes_mem (df : List Row) (aid dd t : String)
    (ht : t ∈ alarmTimes df aid dd) :
    ∃ r ∈ df, dateOf r.timeStamp = dd ∧ t = timeOf r.timeStamp := by
  rw [alarmTimes, getAlarmsForDate] at ht
  obtain ⟨al, hal, hte⟩ := List.mem_map.1 ht
  rw [mem_isortK] at hal
  obtain ⟨r, hr, hmk⟩ := List.mem_map.1 hal
  have hf := List.mem_filter.1 hr
  have hdd : dateOf r.timeStamp = dd := by
    have := hf.2
    rw [Bool.and_eq_true] at this
    exact eq_of_beq this.2
  refine ⟨r, hf.1, hdd, ?_⟩
  rw [← hte, ← hmk]
  rfl

theorem alarmTimes_facts (df : List Row) (aid dd : String) (hg : goodDf df)
    (t : String) (ht : t ∈ alarmTimes df aid dd) :
    tsHas df (dd ++ " " ++ t) ∧
      ∃ v, parseDT (dd ++ " " ++ t) = some v ∧
        renderDate v = dd ∧ renderTime v = t := by
  obtain ⟨r, hrdf, hdd, htm⟩ := alarmTimes_mem df aid dd t ht
  obtain ⟨v, hv, hsd, hd, htv⟩ := canonical_split r.timeStamp (hg.1 r hrdf)
  have hts : dd ++ " " ++ t = r.timeStamp := by
    rw [← hdd, htm, hd, htv, hsd]
  constructor
  · rw [tsHas, hts]
    exact List.mem_map.2 ⟨r, hrdf, rfl⟩
  · refine ⟨v, ?_, ?_, ?_⟩
    · rw [hts]
      exact hv
    · rw [← hd, hdd]
    · rw [← htv, htm]

/-! ### One engine step at a canonical alarm -/

theorem any_of_tsHas (df : List Row) (ts : String) (h : tsHas df ts) :
    df.any (fun r => r.timeStamp == ts) = true := by
  rw [tsHas] at h
  obtain ⟨r, hr, he⟩ := List.mem_map.1 h
  exact List.any_eq_true.2 ⟨r, hr, by rw [he]; exact beq_self_eq_true ts⟩

theorem annPred_exact (df : List Row) (dd t : String)
    (hany : df.any (fun r => r.timeStamp == dd ++ " " ++ t) = true) :
    annPred df dd t = fun r => r.timeStamp == dd ++ " " ++ t := by
  rw [annPred, if_pos hany]

theorem getAlarmAnn_cls_exact (df : List Row) (dd t : String)
    (hany : df.any (fun r => r.timeStamp == dd ++ " " ++ t) = true) :
    (getAlarmAnn (some df) dd t).classification.isSome =
      annS df (dd ++ " " ++ t) := by
  rw [getAlarmAnn, annPred_exact df dd t hany, annS]
  rcases hf : df.find? (fun r => r.timeStamp == dd ++ " " ++ t) with _ | r
  · rw [hf]
    rfl
  · rw [hf]

/-- An already-annotated canonical alarm is skipped outright. -/
theorem step_skip (refs : List RefRec) (df : List Row) (dd t : String)
    (hany : df.any (fun r => r.timeStamp == dd ++ " " ++ t) = true)
    (hann : annS df (dd ++ " " ++ t) = true) :
    stepAlarm refs df dd t = df := by
  rw [stepAlarm,
    if_pos (by rw [getAlarmAnn_cls_exact df dd t hany]; exact hann)]

/-- Processing a canonical alarm leaves its exact row annotated and
never touches a row whose classification is already set. -/
theorem step_good (refs : List RefRec) (df : List Row) (dd t : String)
    (hhas : tsHas df (dd ++ " " ++ t))
    (hp : ∃ v, parseDT (dd ++ " " ++ t) = some v ∧
      renderDate v = dd ∧ renderTime v = t) :
    annS (stepAlarm refs df dd t) (dd ++ " " ++ t) = true ∧
    ∀ j : Nat, ∀ r : Row, df[j]? = some r →
      (clsOfCell r.classification).isSome = true →
      (stepAlarm refs df dd t)[j]? = some r := by
  have hany := any_of_tsHas df _ hhas
  by_cases hann : annS df (dd ++ " " ++ t) = true
  · rw [step_skip refs df dd t hany hann]
    exact ⟨hann, fun j r hj _ => hj⟩
  · obtain ⟨v, hv, hvd, hvt⟩ := hp
    have hann2 : annS df (dd ++ " " ++ t) = false := by
      cases h : annS df (dd ++ " " ++ t)
      · rfl
      · exact absurd h hann
    have hcls : (getAlarmAnn (some df) dd t).classification.isSome = false :=
      by rw [getAlarmAnn_cls_exact df dd t hany]
         exact hann2
    have hstep : stepAlarm refs df dd t =
        updateAt df (df.findIdx (fun r => r.timeStamp == dd ++ " " ++ t))
          (applyAnn (some (validateAlarm refs
            (getNursingRecords (some df) (dd ++ " " ++ t))).1) "") := by
      rw [stepAlarm, if_neg (by rw [hcls]; exact Bool.false_ne_true)]
      dsimp only
      rw [validateAndSaveAlarm_eq refs df _ _ v hv]
      dsimp only
      rw [hvd, hvt, setAlarmAnn, annPred_exact df dd t hany, if_pos hany]
      rfl
    constructor
    · rw [hstep]
      obtain ⟨r₀, _, hr2⟩ := find?_updateAt_findIdx
        (fun r => r.timeStamp == dd ++ " " ++ t)
        (applyAnn (some (validateAlarm refs
          (getNursingRecords (some df) (dd ++ " " ++ t))).1) "")
        (fun a => rfl) df hany
      rw [annS, hr2]
      rfl
    · intro j r hj hcls2
      rw [hstep]
      have hi : df[df.findIdx (fun r => r.timeStamp == dd ++ " " ++ t)]? =
          df.find? (fun r => r.timeStamp == dd ++ " " ++ t) :=
        (find?_eq_get_findIdx _ df hany).symm
      rcases hf : df.find? (fun r => r.timeStamp == dd ++ " " ++ t) with _ | r₀
      · exfalso
        obtain ⟨x, hx, hpx⟩ := List.any_eq_true.1 hany
        have : (df.find? (fun r => r.timeStamp == dd ++ " " ++ t)).isSome :=
          List.find?_isSome.2 ⟨x, hx, hpx⟩
        rw [hf] at this
        simp at this
      · have hr₀cls : (clsOfCell r₀.classification).isSome = false := by
          rw [annS, hf] at hann2
          exact hann2
        have hij : df.findIdx (fun r => r.timeStamp == dd ++ " " ++ t) ≠ j := by
          intro he
          rw [hf] at hi
          rw [he, hj] at hi
          injection hi with hi
          rw [← hi] at hr₀cls
          rw [hcls2] at hr₀cls
          exact absurd hr₀cls (by simp)
        rw [updateAt_getElem?, if_neg hij]
        exact hj

/-! ### Folding the engine's loops: one run annotates everything it
iterates; a second run over canonical data only skips -/

theorem runDate_eq_fold (refs : List RefRec) (aid dd : String) (df : List Row) :
    runDate refs aid dd df =
      (alarmTimes df aid dd).foldl (fun acc t => stepAlarm refs acc dd t) df := by
  rw [runDate, alarmTimes, List.foldl_map]

theorem runPatient_eq (refs : List RefRec) (df : List Row) :
    runPatient refs (some df) = some (runPatientDf refs df) := rfl

theorem runFold_post (refs : List RefRec) (dd : String) :
    ∀ (L : List String) (df : List Row),
      (∀ t ∈ L, tsHas df (dd ++ " " ++ t) ∧
        ∃ v, parseDT (dd ++ " " ++ t) = some v ∧
          renderDate v = dd ∧ renderTime v = t) →
      (L.foldl (fun acc t => stepAlarm refs acc dd t) df).map rowKey =
          df.map rowKey ∧
        (∀ t ∈ L,
          annS (L.foldl (fun acc t => stepAlarm refs acc dd t) df)
            (dd ++ " " ++ t) = true) ∧
        (∀ ts, annS df ts = true →
          annS (L.foldl (fun acc t => stepAlarm refs acc dd t) df) ts = true)
  | [], df, _ =>
    ⟨rfl, by intro t ht; exact absurd ht (List.not_mem_nil t), fun ts h => h⟩
  | t :: L, df, hfacts => by
    simp only [List.foldl_cons]
    have hft := hfacts t (List.mem_cons_self t L)
    have hstep := step_good refs df dd t hft.1 hft.2
    have hkey1 : (stepAlarm refs df dd t).map rowKey = df.map rowKey :=
      stepAlarm_rowKey refs df dd t
    have hfacts2 : ∀ u ∈ L, tsHas (stepAlarm refs df dd t) (dd ++ " " ++ u) ∧
        ∃ v, parseDT (dd ++ " " ++ u) = some v ∧
          renderDate v = dd ∧ renderTime v = u := by
      intro u hu
      have h := hfacts u (List.mem_cons_of_mem t hu)
      exact ⟨tsHas_of_rowKey hkey1.symm (dd ++ " " ++ u) h.1, h.2⟩
    obtain ⟨ih1, ih2, ih3⟩ := runFold_post refs dd L (stepAlarm refs df dd t) hfacts2
    refine ⟨?_, ?_, ?_⟩
    · rw [ih1, hkey1]
    · intro u hu
      rcases List.mem_cons.1 hu with rfl | hu
      · exact ih3 _ hstep.1
      · exact ih2 u hu
    · intro ts h
      exact ih3 ts (stepAlarm_annS_mono refs df dd t ts h)

theorem runDate_post (refs : List RefRec) (aid dd : String) (df : List Row)
    (hg : goodDf df) :
    (runDate refs aid dd df).map rowKey = df.map rowKey ∧
      (∀ t ∈ alarmTimes df aid dd,
        annS (runDate refs aid dd df) (dd ++ " " ++ t) = true) ∧
      (∀ ts, annS df ts = true → annS (runDate refs aid dd df) ts = true) := by
  rw [runDate_eq_fold]
  exact runFold_post refs dd (alarmTimes df aid dd) df
    (fun t ht => alarmTimes_facts df aid dd hg t ht)

theorem runDates_post (refs : List RefRec) (aid : String) :
    ∀ (D : List String) (df : List Row), goodDf df →
      (D.foldl (fun acc d => runDate refs aid d acc) df).map rowKey =
          df.map rowKey ∧
        (∀ dd ∈ D, ∀ t ∈ alarmTimes df aid dd,
          annS (D.foldl (fun acc d => runDate refs aid d acc) df)
            (dd ++ " " ++ t) = true) ∧
        (∀ ts, annS df ts = true →
          annS (D.foldl (fun acc d => runDate refs aid d acc) df) ts = true)
  | [], df, _ =>
    ⟨rfl, by intro dd hdd; exact absurd hdd (List.not_mem_nil dd), fun ts h => h⟩
  | dd :: D, df, hg => by
    simp only [List.foldl_cons]
    obtain ⟨hk, ha, hm⟩ := runDate_post refs aid dd df hg
    have hg2 : goodDf (runDate refs aid dd df) := goodDf_of_rowKey hk.symm hg
    obtain ⟨ih1, ih2, ih3⟩ := runDates_post refs aid D (runDate refs aid dd df) hg2
    refine ⟨?_, ?_, ?_⟩
    · rw [ih1, hk]
    · intro d hd t ht
      rcases List.mem_cons.1 hd with rfl | hd
      · exact ih3 _ (ha t ht)
      · exact ih2 d hd t (by rw [alarmTimes_congr hk]; exact ht)
    · intro ts h
      exact ih3 ts (hm ts h)

theorem runAdmission_post (refs : List RefRec) (aid : String) (df : List Row)
    (hg : goodDf df) :
    (runAdmission refs aid df).map rowKey = df.map rowKey ∧
      (∀ dd ∈ getAvailableDates (some df) aid, ∀ t ∈ alarmTimes df aid dd,
        annS (runAdmission refs aid df) (dd ++ " " ++ t) = true) ∧
      (∀ ts, annS df ts = true → annS (runAdmission refs aid df) ts = true) := by
  rw [runAdmission]
  exact runDates_post refs aid (getAvailableDates (some df) aid) df hg

theorem runPeriods_post (refs : List RefRec) :
    ∀ (P : List Period) (df : List Row), goodDf df →
      (P.foldl (fun acc p => runAdmission refs p.id acc) df).map rowKey =
          df.map rowKey ∧
        (∀ p ∈ P, ∀ dd ∈ getAvailableDates (some df) p.id,
          ∀ t ∈ alarmTimes df p.id dd,
          annS (P.foldl (fun acc p => runAdmission refs p.id acc) df)
            (dd ++ " " ++ t) = true) ∧
        (∀ ts, annS df ts = true →
          annS (P.foldl (fun acc p => runAdmission refs p.id acc) df) ts = true)
  | [], df, _ =>
    ⟨rfl, by intro p hp; exact absurd hp (List.not_mem_nil p), fun ts h => h⟩
  | p :: P, df, hg => by
    simp only [List.foldl_cons]
    obtain ⟨hk, ha, hm⟩ := runAdmission_post refs p.id df hg
    have hg2 : goodDf (runAdmission refs p.id df) := goodDf_of_rowKey hk.symm hg
    obtain ⟨ih1, ih2, ih3⟩ := runPeriods_post refs P (runAdmission refs p.id df) hg2
    refine ⟨?_, ?_, ?_⟩
    · rw [ih1, hk]
    · intro q hq dd hdd t ht
      rcases List.mem_cons.1 hq with rfl | hq
      · exact ih3 _ (ha dd hdd t ht)
      · refine ih2 q hq dd ?_ t ?_
        · rw [dates_congr hk]; exact hdd
        · rw [alarmTimes_congr hk]; exact ht
    · intro ts h
      exact ih3 ts (hm ts h)

theorem runPatientDf_post (refs : List RefRec) (df : List Row)
    (hg : goodDf df) :
    (runPatientDf refs df).map rowKey = df.map rowKey ∧
      ∀ p ∈ getAdmissionPeriods (some df),
        ∀ dd ∈ getAvailableDates (some df) p.id,
        ∀ t ∈ alarmTimes df p.id dd,
        annS (runPatientDf refs df) (dd ++ " " ++ t) = true := by
  rw [runPatientDf]
  obtain ⟨h1, h2, _⟩ := runPeriods_post refs (getAdmissionPeriods (some df)) df hg
  exact ⟨h1, h2⟩

/-! ### A run over an already fully-annotated canonical frame is the
identity: every alarm is skipped -/

theorem runFold_id (refs : List RefRec) (dd : String) :
    ∀ (L : List String) (df : List Row),
      (∀ t ∈ L, tsHas df (dd ++ " " ++ t) ∧ annS df (dd ++ " " ++ t) = true) →
      L.foldl (fun acc t => stepAlarm refs acc dd t) df = df
  | [], _, _ => rfl
  | t :: L, df, h => by
    simp only [List.foldl_cons]
    have ht := h t (List.mem_cons_self t L)
    rw [step_skip refs df dd t (any_of_tsHas df _ ht.1) ht.2]
    exact runFold_id refs dd L df (fun u hu => h u (List.mem_cons_of_mem t hu))

theorem runDate_id (refs : List RefRec) (aid dd : String) (df : List Row)
    (hg : goodDf df)
    (hann : ∀ t ∈ alarmTimes df aid dd, annS df (dd ++ " " ++ t) = true) :
    runDate refs aid dd df = df := by
  rw [runDate_eq_fold]
  refine runFold_id refs dd (alarmTimes df aid dd) df ?_
  intro t ht
  exact ⟨(alarmTimes_facts df aid dd hg t ht).1, hann t ht⟩

theorem runDates_id (refs : List RefRec) (aid : String) :
    ∀ (D : List String) (df : List Row), goodDf df →
      (∀ dd ∈ D, ∀ t ∈ alarmTimes df aid dd, annS df (dd ++ " " ++ t) = true) →
      D.foldl (fun acc d => runDate refs aid d acc) df = df
  | [], _, _, _ => rfl
  | dd :: D, df, hg, h => by
    simp only [List.foldl_cons]
    rw [runDate_id refs aid dd df hg (h dd (List.mem_cons_self dd D))]
    exact runDates_id refs aid D df hg
      (fun d hd => h d (List.mem_cons_of_mem dd hd))

theorem runAdmission_id (refs : List RefRec) (aid : String) (df : List Row)
    (hg : goodDf df)
    (hann : ∀ dd ∈ getAvailableDates (some df) aid,
      ∀ t ∈ alarmTimes df aid dd, annS df (dd ++ " " ++ t) = true) :
    runAdmission refs aid df = df := by
  rw [runAdmission]
  exact runDates_id refs aid (getAvailableDates (some df) aid) df hg hann

theorem runPeriods_id (refs : List RefRec) :
    ∀ (P : List Period) (df : List Row), goodDf df →
      (∀ p ∈ P, ∀ dd ∈ getAvailableDates (some df) p.id,
        ∀ t ∈ alarmTimes df p.id dd, annS df (dd ++ " " ++ t) = true) →
      P.foldl (fun acc p => runAdmission refs p.id acc) df = df
  | [], _, _, _ => rfl
  | p :: P, df, hg, h => by
    simp only [List.foldl_cons]
    rw [runAdmission_id refs p.id df hg (h p (List.mem_cons_self p P))]
    exact runPeriods_id refs P df hg
      (fun q hq => h q (List.mem_cons_of_mem p hq))

theorem runPatientDf_idem (refs : List RefRec) (df : List Row)
    (hg : goodDf df) :
    runPatientDf refs (runPatientDf refs df) = runPatientDf refs df := by
  obtain ⟨hk, hann⟩ := runPatientDf_post refs df hg
  have hg2 : goodDf (runPatientDf refs df) := goodDf_of_rowKey hk.symm hg
  rw [runPatientDf, periods_congr hk]
  refine runPeriods_id refs (getAdmissionPeriods (some df))
    (runPatientDf refs df) hg2 ?_
  intro p hp dd hdd t ht
  refine hann p hp dd ?_ t ?_
  · rw [← dates_congr hk]; exact hdd
  · rw [← alarmTimes_congr hk]; exact ht

theorem runPatient_idem (refs : List RefRec) (o : Option (List Row))
    (hg : goodDf (o.getD [])) :
    runPatient refs (runPatient refs o) = runPatient refs o := by
  rcases o with _ | df
  · rfl
  · rw [runPatient_eq, runPatient_eq, runPatientDf_idem refs df hg]

/-- C3 counterexample: on this cached frame `process_all_alarms` is not
idempotent — the second run changes a classification produced by the
first run, because the fuzzy timestamp search lets the skip check and
the write resolve to different rows of the frame. -/
theorem C3_counterexample :
    runEngine [refMatch] (runEngine [refMatch] [("p1", some df0)]) ≠
      runEngine [refMatch] [("p1", some df0)] := by decide

/-- C3 (amended): when every cached frame carries canonical
(`YYYY-MM-DD HH:MM:SS`, hence pairwise comparable) and pairwise-distinct
timestamps, the skip check and the write of `process_all_alarms` resolve
to the same row, already-set classifications are never revisited, and
running the engine twice over the store equals running it once. -/
theorem C3_engine_idempotent_on_canonical (refs : List RefRec)
    (store : List (String × Option (List Row)))
    (hg : ∀ e ∈ store, goodDf (e.2.getD [])) :
    runEngine refs (runEngine refs store) = runEngine refs store := by
  rw [runEngine, runEngine, List.map_map]
  refine List.map_congr_left ?_
  intro e he
  show (e.1, runPatient refs (runPatient refs e.2)) = (e.1, runPatient refs e.2)
  rw [runPatient_idem refs e.2 (hg e he)]

/-- C3 witness: a concrete canonical store satisfying the hypothesis, on
which the engine is idempotent. -/
theorem C3_witness :
    (∀ e ∈ c3wStore, goodDf (e.2.getD [])) ∧
      runEngine [refMatch] (runEngine [refMatch] c3wStore) =
        runEngine [refMatch] c3wStore :=
  ⟨by decide, C3_engine_idempotent_on_canonical [refMatch] c3wStore (by decide)⟩


end SICU
